import Mathlib

/-!
# Verification of the viewport-adaptive resampler core

Shallow embedding (over exact real arithmetic) of the projection algebra,
the cubemap region machinery, `cmp_size`, the FSMR matching pursuit and the
`resample_fsmr` entry point of the FAU-LMS viewport-adaptive-resampling
repository, together with proofs and refutations of the stated properties.

Conventions of the embedding:
* numpy float arithmetic is idealised as exact real arithmetic (`ℝ`);
* `np.arctan2 y x` is `Complex.arg ⟨x, y⟩` (same branch `(-π, π]`, same
  value `0` at the origin);
* Python in-place mutation of arrays (`+=`) is modelled by returning the
  post-call array contents alongside the result;
* a numpy/Python runtime error (ZeroDivisionError, shape mismatch,
  `argmax` of an empty array, explicit `raise`) is an `Except.error`;
* a numpy `nan` entry produced by initialising with `np.nan` and never
  overwriting it is modelled as `Option.none`.
-/

namespace VPR

open Real Matrix

/-! ## Coordinate conversion (src/projections/coordinate_conversion.py) -/

/-- `np.arctan2 y x`: the angle of the point `(x, y)` in `(-π, π]`,
with `arctan2 0 0 = 0`, embedded as the complex argument of `x + y·I`. -/
noncomputable def arctan2 (y x : ℝ) : ℝ := Complex.arg ⟨x, y⟩

/-- `cartesian_to_spherical x y z` returns `(r, theta, phi)` with
`r = √(x²+y²+z²)`, `theta = arccos (z / r)`, `phi = arctan2 y x`. -/
noncomputable def cartesian_to_spherical (x y z : ℝ) : ℝ × ℝ × ℝ :=
  (Real.sqrt (x ^ 2 + y ^ 2 + z ^ 2),
   Real.arccos (z / Real.sqrt (x ^ 2 + y ^ 2 + z ^ 2)),
   arctan2 y x)

/-- `spherical_to_cartesian r theta phi = (r sinθ cosφ, r sinθ sinφ, r cosθ)`. -/
noncomputable def spherical_to_cartesian (r theta phi : ℝ) : ℝ × ℝ × ℝ :=
  (r * Real.sin theta * Real.cos phi,
   r * Real.sin theta * Real.sin phi,
   r * Real.cos theta)

/-! ## Equirectangular projection (src/projections/EquirectangularProjection.py) -/

/-- `EquirectangularProjection.to_sphere` for a canvas of size `(H, W)`:
`phi_s = -((x+0.5)/W)·2π`, `theta_s = ((y+0.5)/H)·π`, then
`spherical_to_cartesian 1 theta_s phi_s`. -/
noncomputable def erp_to_sphere (H W y x : ℝ) : ℝ × ℝ × ℝ :=
  spherical_to_cartesian 1 (((y + 0.5) / H) * π) (-((x + 0.5) / W) * (2 * π))

/-- `EquirectangularProjection.from_sphere`: convert to spherical, wrap
`phi` to `(-2π, 0]` by subtracting `2π` when `phi > 0`, then invert the
linear pixel maps. -/
noncomputable def erp_from_sphere (H W xs ys zs : ℝ) : ℝ × ℝ :=
  let s := cartesian_to_spherical xs ys zs
  let theta := s.2.1
  let phi0 := s.2.2
  let phi := if phi0 > 0 then phi0 - 2 * π else phi0
  ((theta / π) * H - 0.5, -(phi / (2 * π)) * W - 0.5)

/-! ## Rotation matrix (src/var/ViewportAdaptiveResampler.py, `_rotation_matrix`) -/

/-- `Rz(g)`: rotation about the `z` axis, as built in `_rotation_matrix`. -/
noncomputable def rotation_matrix_z (g : ℝ) : Matrix (Fin 3) (Fin 3) ℝ :=
  !![Real.cos g, -Real.sin g, 0; Real.sin g, Real.cos g, 0; 0, 0, 1]

/-- `Ry(b)`: rotation about the `y` axis, as built in `_rotation_matrix`. -/
noncomputable def rotation_matrix_y (b : ℝ) : Matrix (Fin 3) (Fin 3) ℝ :=
  !![Real.cos b, 0, Real.sin b; 0, 1, 0; -Real.sin b, 0, Real.cos b]

/-- `ViewportAdaptiveResampler._rotation_matrix`: `gamma = π - arctan2 y x`,
`other_v = Rz(gamma)·(x,y,z)`, `beta = -arctan2 other_v[2] |other_v[0]|`,
result `Ry(beta)·Rz(gamma)`. -/
noncomputable def rotation_matrix (x y z : ℝ) : Matrix (Fin 3) (Fin 3) ℝ :=
  let gamma := π - arctan2 y x
  let other_v := (rotation_matrix_z gamma).mulVec ![x, y, z]
  let beta := -arctan2 (other_v 2) |other_v 0|
  rotation_matrix_y beta * rotation_matrix_z gamma

/-! ## `cmp_size` (src/misc.py) -/

/-- `misc.cmp_size`, over exact arithmetic on ℕ.
`v = np.floor(np.sqrt(H*W/6))` is `Nat.sqrt (H * W / 6)` with natural
division: for an integer `n`, `n² ≤ ⌊(H·W)/6⌋ ↔ n² ≤ H·W/6` over ℝ, so both
give the largest `n` with `6·n² ≤ H·W`.  The float test
`block_residual < block_size / 2` becomes `2 * block_residual < block_size`. -/
def cmp_size (erp_size : ℕ × ℕ) (block_size : ℕ) : ℕ × ℕ :=
  let v := Nat.sqrt (erp_size.1 * erp_size.2 / 6)
  let block_residual := v % block_size
  let cubeface_res :=
    if 2 * block_residual < block_size then v + (block_size - block_residual)
    else v - block_residual
  (cubeface_res * 2, cubeface_res * 3)

/-- The rounding step as worded by the claim: round `v` to a multiple of
`block`, up when `v mod block < block / 2`, down otherwise. -/
def round_to_multiple (v block : ℕ) : ℕ :=
  if 2 * (v % block) < block then v + (block - v % block) else v - v % block

/-! ## Cubemap projection (src/projections/CubemapProjection.py) -/

/-- A 3D coordinate axis (`'x'`, `'y'`, `'z'` in the source). -/
inductive Axis
  | x
  | y
  | z
  deriving DecidableEq

/-- Component of a 3D point along an axis (`_ax_to_idx` ordering
`('x', 'y', 'z')` applied to `vals = (xs, ys, zs)`). -/
def axis_val : Axis → ℝ × ℝ × ℝ → ℝ
  | Axis.x, v => v.1
  | Axis.y, v => v.2.1
  | Axis.z, v => v.2.2

/-- `CubemapProjection.CoordMap`: linear map between a 2D interval on the
unfolded canvas and a 3D interval on one axis. -/
structure CoordMap where
  interval_2d : ℝ × ℝ
  interval_3d : ℝ × ℝ
  axis_3d : Axis

/-- `CoordMap.lerp`. -/
noncomputable def lerp (val a1 b1 a2 b2 : ℝ) : ℝ := (val - a1) * ((b2 - a2) / (b1 - a1)) + a2

/-- `CoordMap.val3d_for_2d`. -/
noncomputable def CoordMap.val3d_for_2d (m : CoordMap) (val2d : ℝ) : ℝ :=
  lerp val2d m.interval_2d.1 m.interval_2d.2 m.interval_3d.1 m.interval_3d.2

/-- `CoordMap.val2d_for_3d`. -/
noncomputable def CoordMap.val2d_for_3d (m : CoordMap) (val3d : ℝ) : ℝ :=
  lerp val3d m.interval_3d.1 m.interval_3d.2 m.interval_2d.1 m.interval_2d.2

/-- `CubemapProjection.Region`: the two coordinate maps, the plane axis
(the axis hit by neither map, as computed in `Region.__init__`) and the
plane value. -/
structure Region where
  x_map : CoordMap
  y_map : CoordMap
  plane_axis_3d : Axis
  plane_val_3d : ℝ

open Classical in
/-- `Region.within_cubeface_mask`: sign test on the plane-axis component
(`np.sign(plane_val_3d) > 0` selects `> 0`, otherwise `< 0`) and strict
dominance of its absolute value over the two mapped axes. -/
noncomputable def Region.within_cubeface_mask (rg : Region) (xs ys zs : ℝ) : Prop :=
  (if 0 < rg.plane_val_3d then 0 < axis_val rg.plane_axis_3d (xs, ys, zs)
   else axis_val rg.plane_axis_3d (xs, ys, zs) < 0) ∧
  |axis_val rg.x_map.axis_3d (xs, ys, zs)| < |axis_val rg.plane_axis_3d (xs, ys, zs)| ∧
  |axis_val rg.y_map.axis_3d (xs, ys, zs)| < |axis_val rg.plane_axis_3d (xs, ys, zs)|

/-- Value part of `Region.to_2d`: convert to spherical coordinates, extend
the ray to the region's cube plane, convert back, apply the two coordinate
maps; result `(y2d, x2d)` in normalized canvas coordinates. -/
noncomputable def Region.to_2d_val (rg : Region) (xs ys zs : ℝ) : ℝ × ℝ :=
  let s := cartesian_to_spherical xs ys zs
  let theta := s.2.1
  let phi := s.2.2
  let r :=
    match rg.plane_axis_3d with
    | Axis.x => rg.plane_val_3d / (Real.sin theta * Real.cos phi)
    | Axis.y => rg.plane_val_3d / (Real.sin theta * Real.sin phi)
    | Axis.z => rg.plane_val_3d / Real.cos theta
  let c := spherical_to_cartesian r theta phi
  (rg.y_map.val2d_for_3d (axis_val rg.y_map.axis_3d c),
   rg.x_map.val2d_for_3d (axis_val rg.x_map.axis_3d c))

open Classical in
/-- `Region.to_2d` with its guard: raises when the input fails the mask. -/
noncomputable def Region.to_2d (rg : Region) (xs ys zs : ℝ) : Except String (ℝ × ℝ) :=
  if rg.within_cubeface_mask xs ys zs then Except.ok (rg.to_2d_val xs ys zs)
  else Except.error "Not all requested xs, ys, zs values lie within the cubeface."

/-- The `top_region` built in `CubemapProjection.__init__`. -/
noncomputable def top_region : Region :=
  ⟨⟨(0, 1/3), (-1, 1), Axis.x⟩, ⟨(0.5, 1), (-1, 1), Axis.y⟩, Axis.z, 1⟩

/-- The `left_region` built in `CubemapProjection.__init__`. -/
noncomputable def left_region : Region :=
  ⟨⟨(0, 1/3), (1, -1), Axis.x⟩, ⟨(0, 0.5), (1, -1), Axis.z⟩, Axis.y, -1⟩

/-- The `front_region` built in `CubemapProjection.__init__`. -/
noncomputable def front_region : Region :=
  ⟨⟨(1/3, 2/3), (-1, 1), Axis.y⟩, ⟨(0, 0.5), (1, -1), Axis.z⟩, Axis.x, -1⟩

/-- The `right_region` built in `CubemapProjection.__init__`. -/
noncomputable def right_region : Region :=
  ⟨⟨(2/3, 1), (-1, 1), Axis.x⟩, ⟨(0, 0.5), (1, -1), Axis.z⟩, Axis.y, 1⟩

/-- The `back_region` built in `CubemapProjection.__init__`. -/
noncomputable def back_region : Region :=
  ⟨⟨(1/3, 2/3), (1, -1), Axis.z⟩, ⟨(0.5, 1), (-1, 1), Axis.y⟩, Axis.x, 1⟩

/-- The `bottom_region` built in `CubemapProjection.__init__`. -/
noncomputable def bottom_region : Region :=
  ⟨⟨(2/3, 1), (1, -1), Axis.x⟩, ⟨(0.5, 1), (-1, 1), Axis.y⟩, Axis.z, -1⟩

/-- The six regions in the iteration order used by `to_sphere` and
`from_sphere`. -/
noncomputable def cmp_regions : List Region :=
  [top_region, left_region, front_region, right_region, back_region, bottom_region]

/-- The first of `x, y, z` different from both arguments
(`next(filter(lambda a: a not in (ax, ay), ('x','y','z')))`). -/
noncomputable def other_axis (a b : Axis) : Axis :=
  if Axis.x ≠ a ∧ Axis.x ≠ b then Axis.x
  else if Axis.y ≠ a ∧ Axis.y ≠ b then Axis.y
  else Axis.z

/-- `Region.__init__`: rejects coordinate maps sharing a 3D axis, otherwise
stores the maps, the remaining axis as plane axis, and the plane value. -/
noncomputable def region_init (x_map y_map : CoordMap) (plane_val_3d : ℝ) : Except String Region :=
  if x_map.axis_3d = y_map.axis_3d then
    Except.error "2d coordinates x and y are mapped to same 3d axis."
  else
    Except.ok ⟨x_map, y_map, other_axis x_map.axis_3d y_map.axis_3d, plane_val_3d⟩

/-- The state held by a constructed `CubemapProjection`. -/
structure CubemapProjectionState where
  size : ℕ × ℕ
  top : Region
  left : Region
  front : Region
  right : Region
  back : Region
  bottom : Region

/-- `CubemapProjection.__init__(size)`: stores `size` unchecked and builds
the six regions through `Region.__init__`; the only failure path is the
axis-collision check there. -/
noncomputable def cubemap_projection_init (size : ℕ × ℕ) : Except String CubemapProjectionState := do
  let top ← region_init ⟨(0, 1/3), (-1, 1), Axis.x⟩ ⟨(0.5, 1), (-1, 1), Axis.y⟩ 1
  let left ← region_init ⟨(0, 1/3), (1, -1), Axis.x⟩ ⟨(0, 0.5), (1, -1), Axis.z⟩ (-1)
  let front ← region_init ⟨(1/3, 2/3), (-1, 1), Axis.y⟩ ⟨(0, 0.5), (1, -1), Axis.z⟩ (-1)
  let right ← region_init ⟨(2/3, 1), (-1, 1), Axis.x⟩ ⟨(0, 0.5), (1, -1), Axis.z⟩ 1
  let back ← region_init ⟨(1/3, 2/3), (1, -1), Axis.z⟩ ⟨(0.5, 1), (-1, 1), Axis.y⟩ 1
  let bottom ← region_init ⟨(2/3, 1), (1, -1), Axis.x⟩ ⟨(0.5, 1), (-1, 1), Axis.y⟩ (-1)
  return ⟨size, top, left, front, right, back, bottom⟩

/-! ### `CubemapProjection.from_sphere` (pointwise model)

The source initialises `coords_2d` with `np.nan`, overwrites the entries
selected by each region's mask with that region's `to_2d` output, then
rescales.  Pointwise, for a single direction: fold over the six regions,
keeping `none` (nan) until some region's mask claims the point. -/

open Classical in
noncomputable def cmp_from_sphere (size : ℕ × ℕ) (xs ys zs : ℝ) :
    Except String (Option ℝ × Option ℝ) := do
  let acc ← cmp_regions.foldlM
    (fun (acc : Option (ℝ × ℝ)) rg =>
      if rg.within_cubeface_mask xs ys zs then (rg.to_2d xs ys zs).map some
      else pure acc)
    (none : Option (ℝ × ℝ))
  return (acc.map (fun p => p.1 * (size.1 : ℝ) - 0.5),
          acc.map (fun p => p.2 * (size.2 : ℝ) - 0.5))

/-! ## FSMR (src/fsmr/fsmr.py) -/

/-- The weight table of `dct_basis_dict`.  The `2×2` numpy array `weights`
has `weights[0,0] = 1/K`, `weights[0,1] = weights[1,0] = √2/K`,
`weights[1,1] = 2/K`, and is indexed by `((k == 0).astype(int),
(l == 0).astype(int))`: the DC atom `(0,0)` therefore receives
`weights[1,1] = 2/K`, atoms with exactly one zero frequency `√2/K`, and all
remaining atoms `weights[0,0] = 1/K`. -/
noncomputable def dct_weight (K k l : ℕ) : ℝ :=
  if k = 0 then (if l = 0 then 2 / K else Real.sqrt 2 / K)
  else (if l = 0 then Real.sqrt 2 / K else 1 / K)

/-- `dct_basis_dict` at mesh positions `(x n, y n)`: flattened row-major
frequency index `j` with `k = j / K`, `l = j % K` (from `np.mgrid[:K,:K]`
flattened); atom value `cos((π/K)·(yₙ−0.5)·k) · cos((π/K)·(xₙ−0.5)·l) ·
weight(k,l)`. -/
noncomputable def dct_basis_dict {N : ℕ} (x y : Fin N → ℝ) (K : ℕ) :
    Fin (K * K) → Fin N → ℝ :=
  fun j n =>
    Real.cos ((π / K) * (y n - 0.5) * ((j.val / K : ℕ) : ℝ)) *
      Real.cos ((π / K) * (x n - 0.5) * ((j.val % K : ℕ) : ℝ)) *
      dct_weight K (j.val / K) (j.val % K)

/-- `dct_frequency_weighting`: `σ^√(k²+l²)` over the flattened `(k, l)`. -/
noncomputable def dct_frequency_weighting (K : ℕ) (sigma : ℝ) : Fin (K * K) → ℝ :=
  fun j =>
    sigma ^ (Real.sqrt (((j.val / K : ℕ) : ℝ) ^ 2 + ((j.val % K : ℕ) : ℝ) ^ 2))

open Classical in
/-- `np.argmax` over `Fin L`: first index attaining the maximum, as a left
fold that replaces the current best only on strict improvement. -/
noncomputable def np_argmax {L : ℕ} (hL : 0 < L) (f : Fin L → ℝ) : Fin L :=
  (List.finRange L).foldl (fun b i => if f b < f i then i else b) ⟨0, hL⟩

/-- One iteration of the `fsmr` matching-pursuit loop.  (The source hoists
the denominator `D` out of the loop; it only depends on the dictionary and
the spatial weighting, so it is the same value in every iteration.) -/
noncomputable def fsmr_step {L N : ℕ} (hL : 0 < L) (basis_dict : Fin L → Fin N → ℝ)
    (spatial_weighting : Fin N → ℝ) (freq_weighting : Fin L → ℝ) (odc : ℝ)
    (st : (Fin N → ℝ) × (Fin L → ℝ)) : (Fin N → ℝ) × (Fin L → ℝ) :=
  let residual := st.1
  let coeffs := st.2
  let D := fun j => ∑ n, (basis_dict j n) ^ 2 * spatial_weighting n
  let projected_residual := fun j => ∑ n, basis_dict j n * (residual n * spatial_weighting n)
  let obj := fun j => freq_weighting j * ((projected_residual j) ^ 2 / D j)
  let idx := np_argmax hL obj
  let c := projected_residual idx / D idx
  (fun n => residual n - odc * basis_dict idx n * c,
   Function.update coeffs idx (coeffs idx + odc * c))

/-- `fsmr`: residual starts at the signal, coefficients at zero, the loop
body runs exactly `max_iterations` times, and the coefficients are
returned. -/
noncomputable def fsmr {L N : ℕ} (hL : 0 < L) (mesh_val : Fin N → ℝ)
    (basis_dict : Fin L → Fin N → ℝ) (spatial_weighting : Fin N → ℝ)
    (freq_weighting : Fin L → ℝ) (odc : ℝ) (max_iterations : ℕ) : Fin L → ℝ :=
  ((fsmr_step hL basis_dict spatial_weighting freq_weighting odc)^[max_iterations]
    (mesh_val, fun _ => 0)).2

/-! ## `resample_fsmr` (src/fsmr/resample_fsmr.py), list/exception model

Vectors are lists; a numpy shape error on an elementwise or matrix-vector
operation, the `ZeroDivisionError` from `1 / transform_length`, and
`np.argmax` on an empty array are the failure modes. -/

/-- Elementwise product of two 1-D arrays; raises on length mismatch. -/
noncomputable def vec_mul_exc (a b : List ℝ) : Except String (List ℝ) :=
  if a.length = b.length then Except.ok (List.zipWith (· * ·) a b)
  else Except.error "operands could not be broadcast together"

/-- Elementwise difference of two 1-D arrays; raises on length mismatch. -/
noncomputable def vec_sub_exc (a b : List ℝ) : Except String (List ℝ) :=
  if a.length = b.length then Except.ok (List.zipWith (· - ·) a b)
  else Except.error "operands could not be broadcast together"

/-- Elementwise quotient of two 1-D arrays; raises on length mismatch. -/
noncomputable def vec_div_exc (a b : List ℝ) : Except String (List ℝ) :=
  if a.length = b.length then Except.ok (List.zipWith (· / ·) a b)
  else Except.error "operands could not be broadcast together"

/-- Dot product of two 1-D arrays; raises on length mismatch. -/
noncomputable def dot_exc (a b : List ℝ) : Except String ℝ :=
  if a.length = b.length then Except.ok (List.zipWith (· * ·) a b).sum
  else Except.error "shapes not aligned"

/-- `matrix.dot(vector)`: one dot product per row. -/
noncomputable def mat_vec_exc (m : List (List ℝ)) (v : List ℝ) :
    Except String (List ℝ) :=
  m.mapM (fun row => dot_exc row v)

open Classical in
/-- `np.argmax` over a list: first index attaining the maximum. -/
noncomputable def np_argmax_list (l : List ℝ) : ℕ :=
  (List.range l.length).foldl (fun b i => if l.getD b 0 < l.getD i 0 then i else b) 0

/-- The dictionary rows of the list-level `dct_basis_dict` (one row per
flattened frequency, one column per mesh point). -/
noncomputable def dct_basis_matrix (x y : List ℝ) (K : ℤ) : List (List ℝ) :=
  (List.range (K.toNat * K.toNat)).map fun j =>
    (List.zip x y).map fun p =>
      Real.cos ((π / (K:ℝ)) * (p.2 - 0.5) * ((j / K.toNat : ℕ) : ℝ)) *
        Real.cos ((π / (K:ℝ)) * (p.1 - 0.5) * ((j % K.toNat : ℕ) : ℝ)) *
        dct_weight K.toNat (j / K.toNat) (j % K.toNat)

/-- `dct_basis_dict` over lists, with the Python failure mode: the weight
table computes `1 / transform_length` with a Python integer, which raises
`ZeroDivisionError` when `transform_length = 0`; for a negative length,
`np.mgrid[:K, :K]` is empty and the dictionary has no rows. -/
noncomputable def dct_basis_dict_exc (x y : List ℝ) (K : ℤ) :
    Except String (List (List ℝ)) :=
  if K = 0 then Except.error "ZeroDivisionError: division by zero"
  else Except.ok (dct_basis_matrix x y K)

/-- `dct_frequency_weighting` over lists. -/
noncomputable def dct_frequency_weighting_list (K : ℤ) (sigma : ℝ) : List ℝ :=
  (List.range (K.toNat * K.toNat)).map fun j =>
    sigma ^ (Real.sqrt (((j / K.toNat : ℕ) : ℝ) ^ 2 + ((j % K.toNat : ℕ) : ℝ) ^ 2))

/-- Run a fallible step `n` times (`for i in range(n)` with early abort on
an exception). -/
def iterate_exc {m : Type} (f : m → Except String m) : ℕ → m → Except String m
  | 0, a => Except.ok a
  | n + 1, a => f a >>= iterate_exc f n

open Classical in
/-- One iteration of the `fsmr` loop over lists.  The denominator `D` is
computed before the loop in the source and passed in here. -/
noncomputable def fsmr_step_exc (basis_dict : List (List ℝ))
    (spatial_weighting freq_weighting D : List ℝ) (odc : ℝ)
    (st : List ℝ × List ℝ) : Except String (List ℝ × List ℝ) := do
  let residual := st.1
  let coeffs := st.2
  let weighted ← vec_mul_exc residual spatial_weighting
  let p ← mat_vec_exc basis_dict weighted
  let q ← vec_div_exc (p.map (fun a => a ^ 2)) D
  let obj ← vec_mul_exc freq_weighting q
  if obj.length = 0 then
    Except.error "attempt to get argmax of an empty sequence"
  else
    let idx := np_argmax_list obj
    let c := p.getD idx 0 / D.getD idx 0
    let residual' ← vec_sub_exc residual
      ((basis_dict.getD idx []).map (fun b => odc * b * c))
    Except.ok (residual', coeffs.set idx (coeffs.getD idx 0 + odc * c))

/-- `fsmr` over lists: `D = np.square(basis_dict).dot(w)` before the loop,
then exactly `max(T, 0)` iterations of the loop body. -/
noncomputable def fsmr_exc (mesh_val : List ℝ) (basis_dict : List (List ℝ))
    (spatial_weighting freq_weighting : List ℝ) (odc : ℝ)
    (max_iterations : ℤ) : Except String (List ℝ) := do
  let D ← mat_vec_exc (basis_dict.map (fun row => row.map (fun a => a ^ 2)))
    spatial_weighting
  let final ← iterate_exc
    (fsmr_step_exc basis_dict spatial_weighting freq_weighting D odc)
    max_iterations.toNat (mesh_val, List.replicate basis_dict.length 0)
  Except.ok final.2

/-- `resample_fsmr`.  The `+=` lines mutate the caller's mesh arrays in
place; the model returns the post-call contents of both mesh arguments
alongside the target values.  `spatial_weighting = none` selects the
all-ones default. -/
noncomputable def resample_fsmr_exc (source_mesh : List (ℝ × ℝ)) (source_val : List ℝ)
    (target_mesh : List (ℝ × ℝ)) (transform_length : ℤ) (odc sigma shift : ℝ)
    (max_iterations : ℤ) (spatial_weighting : Option (List ℝ)) :
    Except String (List ℝ × List (ℝ × ℝ) × List (ℝ × ℝ)) := do
  let source_mesh := source_mesh.map (fun p => (p.1 + shift, p.2 + shift))
  let target_mesh := target_mesh.map (fun p => (p.1 + shift, p.2 + shift))
  let basis_src ← dct_basis_dict_exc (source_mesh.map Prod.fst)
    (source_mesh.map Prod.snd) transform_length
  let freq := dct_frequency_weighting_list transform_length sigma
  let sw := match spatial_weighting with
    | none => List.replicate source_mesh.length (1:ℝ)
    | some w => w
  let coeffs ← fsmr_exc source_val basis_src sw freq odc max_iterations
  let basis_tgt ← dct_basis_dict_exc (target_mesh.map Prod.fst)
    (target_mesh.map Prod.snd) transform_length
  let target_val ← (List.range target_mesh.length).mapM
    (fun i => dot_exc (basis_tgt.map (fun row => row.getD i 0)) coeffs)
  Except.ok (target_val, source_mesh, target_mesh)

/-! ## Properties of the embedded operations -/

/-! Support lemmas about `arctan2`. -/

lemma arctan2_scaled {s : ℝ} (hs : 0 < s) {phi : ℝ}
    (h1 : -π < phi) (h2 : phi ≤ π) :
    arctan2 (s * Real.sin phi) (s * Real.cos phi) = phi := by
  have hz : (⟨s * Real.cos phi, s * Real.sin phi⟩ : ℂ) =
      (s : ℂ) * (Complex.cos phi + Complex.sin phi * Complex.I) := by
    rw [Complex.mk_eq_add_mul_I]
    push_cast [← Complex.ofReal_cos, ← Complex.ofReal_sin]
    ring
  rw [arctan2, hz, Complex.arg_mul_cos_add_sin_mul_I hs (Set.mem_Ioc.mpr ⟨h1, h2⟩)]

/-- **C1.** ERP round trip: for every canvas `(H, W)` with positive real
dimensions and every pixel coordinate `(y, x)` with `0 ≤ y`, `y + 1 ≤ H`,
`0 ≤ x`, `x + 1 ≤ W` (in particular every in-domain pixel center),
`from_sphere (to_sphere (y, x)) = (y, x)` exactly over real arithmetic. -/
theorem erp_round_trip (H W y x : ℝ) (hH : 0 < H) (hW : 0 < W)
    (hy0 : 0 ≤ y) (hy1 : y + 1 ≤ H) (hx0 : 0 ≤ x) (hx1 : x + 1 ≤ W) :
    erp_from_sphere H W (erp_to_sphere H W y x).1 (erp_to_sphere H W y x).2.1
      (erp_to_sphere H W y x).2.2 = (y, x) := by
  have hπ := Real.pi_pos
  have hHne : H ≠ 0 := ne_of_gt hH
  have hWne : W ≠ 0 := ne_of_gt hW
  have hπne : π ≠ 0 := Real.pi_ne_zero
  set θ : ℝ := ((y + 0.5) / H) * π with hθdef
  set φ : ℝ := -((x + 0.5) / W) * (2 * π) with hφdef
  have hfrac : (y + 0.5) / H < 1 := (div_lt_one hH).mpr (by linarith)
  have hθ0 : 0 < θ := mul_pos (div_pos (by linarith) hH) hπ
  have hθπ : θ < π := by
    have := mul_lt_mul_of_pos_right hfrac hπ
    simpa [hθdef] using this
  have hxfrac : (x + 0.5) / W < 1 := (div_lt_one hW).mpr (by linarith)
  have hxpos : 0 < (x + 0.5) / W := div_pos (by linarith) hW
  have hφ0 : φ < 0 := by
    have : 0 < ((x + 0.5) / W) * (2 * π) := mul_pos hxpos (by linarith)
    rw [hφdef]; linarith
  have hφn : -(2 * π) < φ := by
    have := mul_lt_mul_of_pos_right hxfrac (by linarith : (0:ℝ) < 2 * π)
    rw [hφdef]; nlinarith
  have hsin : 0 < Real.sin θ := Real.sin_pos_of_pos_of_lt_pi hθ0 hθπ
  have hts : erp_to_sphere H W y x =
      (Real.sin θ * Real.cos φ, Real.sin θ * Real.sin φ, Real.cos θ) := by
    simp [erp_to_sphere, spherical_to_cartesian, hθdef, hφdef]
  rw [hts]
  have hnorm : (Real.sin θ * Real.cos φ) ^ 2 + (Real.sin θ * Real.sin φ) ^ 2 +
      (Real.cos θ) ^ 2 = 1 := by
    have h1 := Real.sin_sq_add_cos_sq φ
    have h2 := Real.sin_sq_add_cos_sq θ
    nlinarith [h1, h2]
  simp only [erp_from_sphere, cartesian_to_spherical]
  rw [hnorm, Real.sqrt_one, div_one, Real.arccos_cos hθ0.le hθπ.le]
  by_cases hcase : -π < φ
  · have hat : arctan2 (Real.sin θ * Real.sin φ) (Real.sin θ * Real.cos φ) = φ :=
      arctan2_scaled hsin hcase (by linarith)
    rw [hat, if_neg (by linarith : ¬ φ > 0), Prod.mk.injEq]
    constructor
    · rw [hθdef]; field_simp; ring
    · rw [hφdef]; field_simp; ring
  · push_neg at hcase
    have hsinφ : Real.sin φ = Real.sin (φ + 2 * π) := (Real.sin_add_two_pi φ).symm
    have hcosφ : Real.cos φ = Real.cos (φ + 2 * π) := (Real.cos_add_two_pi φ).symm
    have hat : arctan2 (Real.sin θ * Real.sin φ) (Real.sin θ * Real.cos φ) = φ + 2 * π := by
      rw [hsinφ, hcosφ]
      exact arctan2_scaled hsin (by linarith) (by linarith)
    rw [hat, if_pos (by linarith : φ + 2 * π > 0), Prod.mk.injEq]
    constructor
    · rw [hθdef]; field_simp; ring
    · rw [hφdef]; field_simp; ring

/-- Witness for C1 at `H = W = 8`, pixel `(y, x) = (3, 5)`: the round trip
returns exactly `(3, 5)`. -/
theorem erp_round_trip_witness :
    (0:ℝ) < 8 ∧
    erp_from_sphere 8 8 (erp_to_sphere 8 8 3 5).1 (erp_to_sphere 8 8 3 5).2.1
      (erp_to_sphere 8 8 3 5).2.2 = (3, 5) :=
  ⟨by norm_num,
   erp_round_trip 8 8 3 5 (by norm_num) (by norm_num) (by norm_num) (by norm_num)
     (by norm_num) (by norm_num)⟩

lemma rotation_matrix_z_transpose (g : ℝ) :
    (rotation_matrix_z g)ᵀ =
      !![Real.cos g, Real.sin g, 0; -Real.sin g, Real.cos g, 0; 0, 0, 1] := by
  ext i j
  fin_cases i <;> fin_cases j <;> simp [rotation_matrix_z, Matrix.transpose_apply]

lemma rotation_matrix_y_transpose (b : ℝ) :
    (rotation_matrix_y b)ᵀ =
      !![Real.cos b, 0, -Real.sin b; 0, 1, 0; Real.sin b, 0, Real.cos b] := by
  ext i j
  fin_cases i <;> fin_cases j <;> simp [rotation_matrix_y, Matrix.transpose_apply]

lemma rotation_matrix_z_orth (g : ℝ) :
    (rotation_matrix_z g)ᵀ * rotation_matrix_z g = 1 := by
  have hsc := Real.sin_sq_add_cos_sq g
  rw [rotation_matrix_z_transpose, rotation_matrix_z, Matrix.mul_fin_three]
  ext i j
  fin_cases i <;> fin_cases j <;>
    simp [Matrix.one_apply] <;> nlinarith [hsc]

lemma rotation_matrix_y_orth (b : ℝ) :
    (rotation_matrix_y b)ᵀ * rotation_matrix_y b = 1 := by
  have hsc := Real.sin_sq_add_cos_sq b
  rw [rotation_matrix_y_transpose, rotation_matrix_y, Matrix.mul_fin_three]
  ext i j
  fin_cases i <;> fin_cases j <;>
    simp [Matrix.one_apply] <;> nlinarith [hsc]

lemma orth_mul {A B : Matrix (Fin 3) (Fin 3) ℝ} (hA : Aᵀ * A = 1) (hB : Bᵀ * B = 1) :
    (A * B)ᵀ * (A * B) = 1 := by
  rw [Matrix.transpose_mul, Matrix.mul_assoc, ← Matrix.mul_assoc Aᵀ, hA, Matrix.one_mul, hB]

lemma rotation_matrix_z_mulVec (g x y z : ℝ) :
    (rotation_matrix_z g).mulVec ![x, y, z] =
      ![Real.cos g * x - Real.sin g * y, Real.sin g * x + Real.cos g * y, z] := by
  funext i
  fin_cases i <;>
    simp [rotation_matrix_z, Matrix.mulVec, Matrix.dotProduct, Fin.sum_univ_three] <;> ring

lemma rotation_matrix_y_mulVec (b x y z : ℝ) :
    (rotation_matrix_y b).mulVec ![x, y, z] =
      ![Real.cos b * x + Real.sin b * z, y, -Real.sin b * x + Real.cos b * z] := by
  funext i
  fin_cases i <;>
    simp [rotation_matrix_y, Matrix.mulVec, Matrix.dotProduct, Fin.sum_univ_three]

lemma complex_mk_ne_zero {x y : ℝ} (h : x ≠ 0 ∨ y ≠ 0) : (⟨x, y⟩ : ℂ) ≠ 0 := by
  intro hc
  have hre : x = 0 := congrArg Complex.re hc
  have him : y = 0 := congrArg Complex.im hc
  rcases h with h | h <;> exact h (by assumption)

lemma cos_arctan2 {y x : ℝ} (h : x ≠ 0 ∨ y ≠ 0) :
    Real.cos (arctan2 y x) = x / Real.sqrt (x ^ 2 + y ^ 2) := by
  rw [arctan2, Complex.cos_arg (complex_mk_ne_zero h)]
  congr 1
  rw [Complex.abs_apply, Complex.normSq_mk]
  ring_nf

lemma sin_arctan2 (y x : ℝ) :
    Real.sin (arctan2 y x) = y / Real.sqrt (x ^ 2 + y ^ 2) := by
  rw [arctan2, Complex.sin_arg]
  congr 1
  rw [Complex.abs_apply, Complex.normSq_mk]
  ring_nf

lemma arctan2_zero_zero : arctan2 0 0 = 0 := by
  have h0 : (⟨(0:ℝ), (0:ℝ)⟩ : ℂ) = 0 := by
    apply Complex.ext <;> simp
  rw [arctan2, h0, Complex.arg_zero]

lemma arctan2_one_zero : arctan2 1 0 = π / 2 := by
  have hI : (⟨(0:ℝ), (1:ℝ)⟩ : ℂ) = Complex.I := by
    apply Complex.ext <;> simp
  rw [arctan2, hI, Complex.arg_I]

lemma arctan2_neg_one_zero : arctan2 (-1) 0 = -(π / 2) := by
  have hI : (⟨(0:ℝ), (-1:ℝ)⟩ : ℂ) = -Complex.I := by
    apply Complex.ext <;> simp
  rw [arctan2, hI, Complex.arg_neg_I]

/-- **C2.** For every unit vector `v = (x, y, z)`, the matrix
`R = Ry(beta)·Rz(gamma)` built by `_rotation_matrix` (with
`gamma = π - arctan2 y x` and `beta = -arctan2 z' |x'|` for
`(x', y', z') = Rz(gamma)·v`) is orthogonal and maps `v` to `(-1, 0, 0)`
exactly over real arithmetic. -/
theorem rotation_matrix_spec (x y z : ℝ) (h : x ^ 2 + y ^ 2 + z ^ 2 = 1) :
    (rotation_matrix x y z)ᵀ * rotation_matrix x y z = 1 ∧
    (rotation_matrix x y z).mulVec ![x, y, z] = ![-1, 0, 0] := by
  simp only [rotation_matrix]
  refine ⟨orth_mul (rotation_matrix_y_orth _) (rotation_matrix_z_orth _), ?_⟩
  rw [← Matrix.mulVec_mulVec, rotation_matrix_z_mulVec]
  set t := arctan2 y x with htdef
  have hcosγ : Real.cos (π - t) = -Real.cos t := Real.cos_pi_sub t
  have hsinγ : Real.sin (π - t) = Real.sin t := Real.sin_pi_sub t
  by_cases hxy : x = 0 ∧ y = 0
  · obtain ⟨hx, hy⟩ := hxy
    subst hx; subst hy
    have ht0 : t = 0 := arctan2_zero_zero
    have hz2 : z ^ 2 = 1 := by nlinarith
    have hsimp : ![Real.cos (π - t) * 0 - Real.sin (π - t) * 0,
        Real.sin (π - t) * 0 + Real.cos (π - t) * 0, z] = ![(0:ℝ), 0, z] := by
      funext i; fin_cases i <;> simp
    rw [hsimp]
    have habs : |(![(0:ℝ), 0, z]) 0| = 0 := by simp
    have hv2 : (![(0:ℝ), 0, z]) 2 = z := by simp
    rw [hv2, habs]
    have hz1 : z = 1 ∨ z = -1 := by
      have : (z - 1) * (z + 1) = 0 := by nlinarith
      rcases mul_eq_zero.mp this with h' | h'
      · left; linarith
      · right; linarith
    rcases hz1 with rfl | rfl
    · rw [arctan2_one_zero, rotation_matrix_y_mulVec]
      funext i; fin_cases i <;>
        simp [Real.cos_pi_div_two, Real.sin_pi_div_two]
    · rw [arctan2_neg_one_zero, rotation_matrix_y_mulVec]
      funext i; fin_cases i <;>
        simp [Real.cos_pi_div_two, Real.sin_pi_div_two]
  · have hxy' : x ≠ 0 ∨ y ≠ 0 := by
      by_contra hc
      push_neg at hc
      exact hxy ⟨hc.1, hc.2⟩
    set ρ : ℝ := Real.sqrt (x ^ 2 + y ^ 2) with hρdef
    have hsum_pos : 0 < x ^ 2 + y ^ 2 := by
      rcases hxy' with h' | h'
      · have : 0 < x ^ 2 := by positivity
        nlinarith [sq_nonneg y]
      · have : 0 < y ^ 2 := by positivity
        nlinarith [sq_nonneg x]
    have hρpos : 0 < ρ := Real.sqrt_pos.mpr hsum_pos
    have hρsq : ρ ^ 2 = x ^ 2 + y ^ 2 := Real.sq_sqrt hsum_pos.le
    have hcost : Real.cos t = x / ρ := cos_arctan2 hxy'
    have hsint : Real.sin t = y / ρ := sin_arctan2 y x
    have hv0 : Real.cos (π - t) * x - Real.sin (π - t) * y = -ρ := by
      rw [hcosγ, hsinγ, hcost, hsint]
      field_simp
      nlinarith [hρsq]
    have hv1 : Real.sin (π - t) * x + Real.cos (π - t) * y = 0 := by
      rw [hcosγ, hsinγ, hcost, hsint]
      field_simp
      ring
    have hsimp : ![Real.cos (π - t) * x - Real.sin (π - t) * y,
        Real.sin (π - t) * x + Real.cos (π - t) * y, z] = ![-ρ, 0, z] := by
      rw [hv0, hv1]
    rw [hsimp]
    have habs : |(![-ρ, (0:ℝ), z]) 0| = ρ := by
      simp [abs_of_pos hρpos]
    have hv2 : (![-ρ, (0:ℝ), z]) 2 = z := by simp
    rw [hv2, habs]
    have hρz : ρ ^ 2 + z ^ 2 = 1 := by rw [hρsq]; linarith
    have hβne : (ρ:ℝ) ≠ 0 ∨ z ≠ 0 := Or.inl (ne_of_gt hρpos)
    have hsqrt1 : Real.sqrt (ρ ^ 2 + z ^ 2) = 1 := by rw [hρz, Real.sqrt_one]
    have hcosβ : Real.cos (-arctan2 z ρ) = ρ := by
      rw [Real.cos_neg, cos_arctan2 hβne, hsqrt1, div_one]
    have hsinβ : Real.sin (-arctan2 z ρ) = -z := by
      rw [Real.sin_neg, sin_arctan2 z ρ, hsqrt1, div_one]
    rw [rotation_matrix_y_mulVec]
    funext i
    fin_cases i <;> simp [hcosβ, hsinβ] <;> nlinarith [hρz]

/-- Witness for C2 at the unit vector `(1, 0, 0)`. -/
theorem rotation_matrix_spec_witness :
    (1:ℝ) ^ 2 + 0 ^ 2 + 0 ^ 2 = 1 ∧
    ((rotation_matrix 1 0 0)ᵀ * rotation_matrix 1 0 0 = 1 ∧
     (rotation_matrix 1 0 0).mulVec ![1, 0, 0] = ![-1, 0, 0]) :=
  ⟨by norm_num, rotation_matrix_spec 1 0 0 (by norm_num)⟩

lemma sqrt_349525 : Nat.sqrt 349525 = 591 :=
  (Nat.eq_sqrt.mpr (by norm_num)).symm

lemma cmp_size_def (H W B : ℕ) :
    cmp_size (H, W) B =
      ((if 2 * (Nat.sqrt (H * W / 6) % B) < B
        then Nat.sqrt (H * W / 6) + (B - Nat.sqrt (H * W / 6) % B)
        else Nat.sqrt (H * W / 6) - Nat.sqrt (H * W / 6) % B) * 2,
       (if 2 * (Nat.sqrt (H * W / 6) % B) < B
        then Nat.sqrt (H * W / 6) + (B - Nat.sqrt (H * W / 6) % B)
        else Nat.sqrt (H * W / 6) - Nat.sqrt (H * W / 6) % B) * 3) := rfl

lemma cmp_size_1024_2048 : cmp_size (1024, 2048) 32 = (1216, 1824) := by
  have h6 : (1024 * 2048 : ℕ) / 6 = 349525 := by norm_num
  rw [cmp_size_def, h6, sqrt_349525]
  norm_num

/-- Counterexample for C4: `cmp_size ((1024, 2048), 32)` does not return
`(1024, 1536)` (it returns `(1216, 1824)`: `⌊√(1024·2048/6)⌋ = 591`,
`591 mod 32 = 15 < 16`, round up to `608`). -/
theorem cmp_size_concrete_counterexample : cmp_size (1024, 2048) 32 ≠ (1024, 1536) := by
  rw [cmp_size_1024_2048]
  decide

/-- **C4 (amended).** `cmp_size ((H, W), B)` returns `(2F, 3F)` where `F` is
`⌊√(H·W/6)⌋` rounded to a multiple of `B` (up when the residual is below
`B/2`, down otherwise); the concrete value at `((1024, 2048), 32)` is
`(1216, 1824)`, not `(1024, 1536)`. -/
theorem cmp_size_formula (H W B : ℕ) (hB : 0 < B) :
    cmp_size (H, W) B =
      (2 * round_to_multiple (Nat.sqrt (H * W / 6)) B,
       3 * round_to_multiple (Nat.sqrt (H * W / 6)) B) ∧
    cmp_size (1024, 2048) 32 = (1216, 1824) := by
  refine ⟨?_, cmp_size_1024_2048⟩
  rw [cmp_size_def, round_to_multiple]
  by_cases hc : 2 * (Nat.sqrt (H * W / 6) % B) < B
  · simp only [if_pos hc, Prod.mk.injEq]
    omega
  · simp only [if_neg hc, Prod.mk.injEq]
    omega

/-- Witness for C4 at `H = 1024`, `W = 2048`, `B = 32`. -/
theorem cmp_size_formula_witness :
    0 < 32 ∧
    (cmp_size (1024, 2048) 32 =
       (2 * round_to_multiple (Nat.sqrt (1024 * 2048 / 6)) 32,
        3 * round_to_multiple (Nat.sqrt (1024 * 2048 / 6)) 32) ∧
     cmp_size (1024, 2048) 32 = (1216, 1824)) :=
  ⟨by norm_num, cmp_size_formula 1024 2048 32 (by norm_num)⟩

lemma cmp_size_32_48 : cmp_size (32, 48) 32 = (0, 0) := by
  have h6 : (32 * 48 : ℕ) / 6 = 256 := by norm_num
  have hs : Nat.sqrt 256 = 16 := by
    have h : (256 : ℕ) = 16 * 16 := by norm_num
    rw [h, Nat.sqrt_eq]
  rw [cmp_size_def, h6, hs]
  norm_num

/-- Counterexample for C5: at `(H, W) = (32, 48)`, `B = 32` the code returns
`(0, 0)` (`⌊√(32·48/6)⌋ = 16`, residual `16 ≥ 16`, round down to `0`), so no
`F` with `F ≥ B` exists. -/
theorem cmp_size_min_counterexample :
    ¬ ∃ F : ℕ, cmp_size (32, 48) 32 = (2 * F, 3 * F) ∧ F % 32 = 0 ∧ 32 ≤ F := by
  rintro ⟨F, hF, -, hge⟩
  rw [cmp_size_32_48] at hF
  have h1 := congrArg Prod.fst hF
  simp only [Prod.fst] at h1
  omega

/-- **C5 (amended).** `cmp_size ((H, W), B)` always returns `(2F, 3F)` with
`F mod B = 0`; additionally `F ≥ B` holds whenever `v = ⌊√(H·W/6)⌋`
satisfies `2·v < B` or `B ≤ v` (i.e. except when `B/2 ≤ v < B`, where the
round-down step yields `F = 0`). -/
theorem cmp_size_divisibility (H W B : ℕ) (hB : 0 < B) :
    ∃ F : ℕ, cmp_size (H, W) B = (2 * F, 3 * F) ∧ F % B = 0 ∧
      ((2 * Nat.sqrt (H * W / 6) < B ∨ B ≤ Nat.sqrt (H * W / 6)) → B ≤ F) := by
  have hdm := Nat.div_add_mod (Nat.sqrt (H * W / 6)) B
  have hrB : Nat.sqrt (H * W / 6) % B < B := Nat.mod_lt _ hB
  have hrle : Nat.sqrt (H * W / 6) % B ≤ Nat.sqrt (H * W / 6) := Nat.mod_le _ _
  by_cases hc : 2 * (Nat.sqrt (H * W / 6) % B) < B
  · refine ⟨B * (Nat.sqrt (H * W / 6) / B) + B, ?_, ?_, fun _ => ?_⟩
    · rw [cmp_size_def]
      simp only [if_pos hc, Prod.mk.injEq]
      omega
    · simp [Nat.add_mod, Nat.mul_mod_right, Nat.mod_self]
    · omega
  · refine ⟨B * (Nat.sqrt (H * W / 6) / B), ?_, ?_, fun hor => ?_⟩
    · rw [cmp_size_def]
      simp only [if_neg hc, Prod.mk.injEq]
      omega
    · simp [Nat.mul_mod_right]
    · rcases hor with hor | hor
      · omega
      · have h1 : 1 ≤ Nat.sqrt (H * W / 6) / B := (Nat.one_le_div_iff hB).mpr hor
        calc B = B * 1 := (Nat.mul_one B).symm
        _ ≤ B * (Nat.sqrt (H * W / 6) / B) := Nat.mul_le_mul_left B h1

/-- Witness for C5 at `H = 1024`, `W = 2048`, `B = 32`. -/
theorem cmp_size_divisibility_witness :
    0 < 32 ∧
    ∃ F : ℕ, cmp_size (1024, 2048) 32 = (2 * F, 3 * F) ∧ F % 32 = 0 ∧
      ((2 * Nat.sqrt (1024 * 2048 / 6) < 32 ∨ 32 ≤ Nat.sqrt (1024 * 2048 / 6)) → 32 ≤ F) :=
  ⟨by norm_num, cmp_size_divisibility 1024 2048 32 (by norm_num)⟩

/-- Counterexample for C9: a canvas of size `(5, 7)` — not of the `(2F, 3F)`
shape — is accepted by the constructor (no `InvalidConfig` is raised). -/
theorem cubemap_init_no_size_check :
    cubemap_projection_init (5, 7) =
      Except.ok ⟨(5, 7), top_region, left_region, front_region, right_region,
        back_region, bottom_region⟩ := rfl

/-- **C9 (amended).** `CubemapProjection.__init__` performs no validation of
the canvas size: construction succeeds for every size (2:3 or not) and
stores the six fixed regions; the Region axis-collision check never fires
for them. -/
theorem cubemap_init_total (size : ℕ × ℕ) :
    cubemap_projection_init size =
      Except.ok ⟨size, top_region, left_region, front_region, right_region,
        back_region, bottom_region⟩ := rfl

open Classical in
lemma cmp_from_sphere_fold_ok (xs ys zs : ℝ) (l : List Region) (acc : Option (ℝ × ℝ)) :
    ∃ a, l.foldlM
      (fun (acc : Option (ℝ × ℝ)) rg =>
        if rg.within_cubeface_mask xs ys zs then (rg.to_2d xs ys zs).map some
        else pure acc)
      acc = Except.ok a := by
  induction l generalizing acc with
  | nil => exact ⟨acc, rfl⟩
  | cons rg t ih =>
    rw [List.foldlM_cons]
    by_cases h : rg.within_cubeface_mask xs ys zs
    · rw [if_pos h, Region.to_2d, if_pos h]
      exact ih (some (rg.to_2d_val xs ys zs))
    · rw [if_neg h]
      exact ih acc

open Classical in
lemma cmp_from_sphere_fold_none (xs ys zs : ℝ) (l : List Region)
    (h : ∀ rg ∈ l, ¬ rg.within_cubeface_mask xs ys zs) :
    l.foldlM
      (fun (acc : Option (ℝ × ℝ)) rg =>
        if rg.within_cubeface_mask xs ys zs then (rg.to_2d xs ys zs).map some
        else pure acc)
      (none : Option (ℝ × ℝ)) = Except.ok none := by
  induction l with
  | nil => rfl
  | cons rg t ih =>
    rw [List.foldlM_cons, if_neg (h rg (List.mem_cons_self rg t))]
    exact ih (fun r hr => h r (List.mem_cons_of_mem rg hr))

/-- **C10.** `CubemapProjection.from_sphere` is total: it never raises (the
exception branch of `Region.to_2d` is guarded by the very mask used to
select the points), and a direction claimed by no region keeps its `nan`
initialisation (here `none`) for both output coordinates. -/
theorem cmp_from_sphere_total (size : ℕ × ℕ) (xs ys zs : ℝ) :
    (∃ p, cmp_from_sphere size xs ys zs = Except.ok p) ∧
    ((∀ rg ∈ cmp_regions, ¬ rg.within_cubeface_mask xs ys zs) →
      cmp_from_sphere size xs ys zs = Except.ok (none, none)) := by
  constructor
  · obtain ⟨a, ha⟩ := cmp_from_sphere_fold_ok xs ys zs cmp_regions none
    exact ⟨_, by rw [cmp_from_sphere, ha]; rfl⟩
  · intro h
    rw [cmp_from_sphere, cmp_from_sphere_fold_none xs ys zs cmp_regions h]
    rfl

/-- Witness for C10 at `size = (2, 3)` and the edge direction `(1, 1, 0)`
(the two largest absolute components tie): no region claims it and both
outputs stay `none`. -/
theorem cmp_from_sphere_total_witness :
    (∀ rg ∈ cmp_regions, ¬ rg.within_cubeface_mask 1 1 0) ∧
    cmp_from_sphere (2, 3) 1 1 0 = Except.ok (none, none) := by
  have hmask : ∀ rg ∈ cmp_regions, ¬ rg.within_cubeface_mask 1 1 0 := by
    intro rg hrg
    simp only [cmp_regions, List.mem_cons, List.not_mem_nil, or_false] at hrg
    rcases hrg with rfl | rfl | rfl | rfl | rfl | rfl <;>
      simp [Region.within_cubeface_mask, top_region, left_region, front_region,
        right_region, back_region, bottom_region, axis_val]
  exact ⟨hmask, (cmp_from_sphere_total (2, 3) 1 1 0).2 hmask⟩

/-! ### CMP partition: support lemmas -/

lemma cart_sph_theta {xs ys zs : ℝ} (h : xs ^ 2 + ys ^ 2 + zs ^ 2 = 1) :
    (cartesian_to_spherical xs ys zs).2.1 = Real.arccos zs := by
  simp only [cartesian_to_spherical]
  rw [h, Real.sqrt_one, div_one]

lemma cart_sph_phi (xs ys zs : ℝ) :
    (cartesian_to_spherical xs ys zs).2.2 = arctan2 ys xs := rfl

lemma cart_sph_cos {xs ys zs : ℝ} (h : xs ^ 2 + ys ^ 2 + zs ^ 2 = 1) :
    Real.cos (cartesian_to_spherical xs ys zs).2.1 = zs := by
  rw [cart_sph_theta h]
  exact Real.cos_arccos (by nlinarith [sq_nonneg xs, sq_nonneg ys])
    (by nlinarith [sq_nonneg xs, sq_nonneg ys])

lemma cart_sph_sin {xs ys zs : ℝ} (h : xs ^ 2 + ys ^ 2 + zs ^ 2 = 1) :
    Real.sin (cartesian_to_spherical xs ys zs).2.1 = Real.sqrt (xs ^ 2 + ys ^ 2) := by
  rw [cart_sph_theta h, Real.sin_arccos]
  congr 1
  nlinarith

lemma sqrt_mul_cos_arctan2 (xs ys : ℝ) :
    Real.sqrt (xs ^ 2 + ys ^ 2) * Real.cos (arctan2 ys xs) = xs := by
  by_cases hxy : xs = 0 ∧ ys = 0
  · obtain ⟨rfl, rfl⟩ := hxy
    simp [arctan2_zero_zero]
  · have h' : xs ≠ 0 ∨ ys ≠ 0 := by tauto
    have hpos : 0 < xs ^ 2 + ys ^ 2 := by
      rcases h' with h' | h'
      · have : 0 < xs ^ 2 := by positivity
        nlinarith [sq_nonneg ys]
      · have : 0 < ys ^ 2 := by positivity
        nlinarith [sq_nonneg xs]
    rw [cos_arctan2 h', mul_comm, div_mul_cancel₀]
    exact ne_of_gt (Real.sqrt_pos.mpr hpos)

lemma sqrt_mul_sin_arctan2 (xs ys : ℝ) :
    Real.sqrt (xs ^ 2 + ys ^ 2) * Real.sin (arctan2 ys xs) = ys := by
  by_cases hxy : xs = 0 ∧ ys = 0
  · obtain ⟨rfl, rfl⟩ := hxy
    simp [arctan2_zero_zero]
  · have h' : xs ≠ 0 ∨ ys ≠ 0 := by tauto
    have hpos : 0 < xs ^ 2 + ys ^ 2 := by
      rcases h' with h' | h'
      · have : 0 < xs ^ 2 := by positivity
        nlinarith [sq_nonneg ys]
      · have : 0 < ys ^ 2 := by positivity
        nlinarith [sq_nonneg xs]
    rw [sin_arctan2, mul_comm, div_mul_cancel₀]
    exact ne_of_gt (Real.sqrt_pos.mpr hpos)

lemma cart_sph_sin_cos {xs ys zs : ℝ} (h : xs ^ 2 + ys ^ 2 + zs ^ 2 = 1) :
    Real.sin (cartesian_to_spherical xs ys zs).2.1 *
      Real.cos (cartesian_to_spherical xs ys zs).2.2 = xs := by
  rw [cart_sph_sin h, cart_sph_phi, sqrt_mul_cos_arctan2]

lemma cart_sph_sin_sin {xs ys zs : ℝ} (h : xs ^ 2 + ys ^ 2 + zs ^ 2 = 1) :
    Real.sin (cartesian_to_spherical xs ys zs).2.1 *
      Real.sin (cartesian_to_spherical xs ys zs).2.2 = ys := by
  rw [cart_sph_sin h, cart_sph_phi, sqrt_mul_sin_arctan2]

lemma spherical_scale {xs ys zs : ℝ} (h : xs ^ 2 + ys ^ 2 + zs ^ 2 = 1) (t : ℝ) :
    spherical_to_cartesian t (cartesian_to_spherical xs ys zs).2.1
      (cartesian_to_spherical xs ys zs).2.2 = (t * xs, t * ys, t * zs) := by
  simp only [spherical_to_cartesian, Prod.mk.injEq]
  refine ⟨?_, ?_, ?_⟩
  · rw [mul_assoc, cart_sph_sin_cos h]
  · rw [mul_assoc, cart_sph_sin_sin h]
  · rw [cart_sph_cos h]

lemma scaled_abs_lt_one {a b s : ℝ} (hb : b ≠ 0) (hab : |a| < |b|) (hs : |s| = 1) :
    -1 < s / b * a ∧ s / b * a < 1 := by
  have habs : |s / b * a| < 1 := by
    rw [abs_mul, abs_div, hs, one_div_mul_eq_div]
    exact (div_lt_one (abs_pos.mpr hb)).mpr hab
  exact abs_lt.mp habs

lemma top_mask_iff (xs ys zs : ℝ) :
    top_region.within_cubeface_mask xs ys zs ↔ 0 < zs ∧ |xs| < |zs| ∧ |ys| < |zs| := by
  simp only [Region.within_cubeface_mask, top_region, axis_val]
  rw [if_pos (by norm_num : (0:ℝ) < 1)]

lemma left_mask_iff (xs ys zs : ℝ) :
    left_region.within_cubeface_mask xs ys zs ↔ ys < 0 ∧ |xs| < |ys| ∧ |zs| < |ys| := by
  simp only [Region.within_cubeface_mask, left_region, axis_val]
  rw [if_neg (by norm_num : ¬ (0:ℝ) < -1)]

lemma front_mask_iff (xs ys zs : ℝ) :
    front_region.within_cubeface_mask xs ys zs ↔ xs < 0 ∧ |ys| < |xs| ∧ |zs| < |xs| := by
  simp only [Region.within_cubeface_mask, front_region, axis_val]
  rw [if_neg (by norm_num : ¬ (0:ℝ) < -1)]

lemma right_mask_iff (xs ys zs : ℝ) :
    right_region.within_cubeface_mask xs ys zs ↔ 0 < ys ∧ |xs| < |ys| ∧ |zs| < |ys| := by
  simp only [Region.within_cubeface_mask, right_region, axis_val]
  rw [if_pos (by norm_num : (0:ℝ) < 1)]

lemma back_mask_iff (xs ys zs : ℝ) :
    back_region.within_cubeface_mask xs ys zs ↔ 0 < xs ∧ |zs| < |xs| ∧ |ys| < |xs| := by
  simp only [Region.within_cubeface_mask, back_region, axis_val]
  rw [if_pos (by norm_num : (0:ℝ) < 1)]

lemma bottom_mask_iff (xs ys zs : ℝ) :
    bottom_region.within_cubeface_mask xs ys zs ↔ zs < 0 ∧ |xs| < |zs| ∧ |ys| < |zs| := by
  simp only [Region.within_cubeface_mask, bottom_region, axis_val]
  rw [if_neg (by norm_num : ¬ (0:ℝ) < -1)]

lemma top_to_2d_val {xs ys zs : ℝ} (h : xs ^ 2 + ys ^ 2 + zs ^ 2 = 1) :
    top_region.to_2d_val xs ys zs =
      ((1 / zs * ys + 1) / 4 + 1 / 2, (1 / zs * xs + 1) / 6) := by
  simp only [Region.to_2d_val, top_region]
  rw [cart_sph_cos h, spherical_scale h (1 / zs)]
  simp only [axis_val, CoordMap.val2d_for_3d, lerp, Prod.mk.injEq]
  norm_num
  constructor <;> ring

lemma left_to_2d_val {xs ys zs : ℝ} (h : xs ^ 2 + ys ^ 2 + zs ^ 2 = 1) :
    left_region.to_2d_val xs ys zs =
      ((1 - -1 / ys * zs) / 4, (1 - -1 / ys * xs) / 6) := by
  simp only [Region.to_2d_val, left_region]
  rw [cart_sph_sin_sin h, spherical_scale h (-1 / ys)]
  simp only [axis_val, CoordMap.val2d_for_3d, lerp, Prod.mk.injEq]
  norm_num
  constructor <;> ring

lemma front_to_2d_val {xs ys zs : ℝ} (h : xs ^ 2 + ys ^ 2 + zs ^ 2 = 1) :
    front_region.to_2d_val xs ys zs =
      ((1 - -1 / xs * zs) / 4, (-1 / xs * ys + 1) / 6 + 1 / 3) := by
  simp only [Region.to_2d_val, front_region]
  rw [cart_sph_sin_cos h, spherical_scale h (-1 / xs)]
  simp only [axis_val, CoordMap.val2d_for_3d, lerp, Prod.mk.injEq]
  norm_num
  constructor <;> ring

lemma right_to_2d_val {xs ys zs : ℝ} (h : xs ^ 2 + ys ^ 2 + zs ^ 2 = 1) :
    right_region.to_2d_val xs ys zs =
      ((1 - 1 / ys * zs) / 4, (1 / ys * xs + 1) / 6 + 2 / 3) := by
  simp only [Region.to_2d_val, right_region]
  rw [cart_sph_sin_sin h, spherical_scale h (1 / ys)]
  simp only [axis_val, CoordMap.val2d_for_3d, lerp, Prod.mk.injEq]
  norm_num
  constructor <;> ring

lemma back_to_2d_val {xs ys zs : ℝ} (h : xs ^ 2 + ys ^ 2 + zs ^ 2 = 1) :
    back_region.to_2d_val xs ys zs =
      ((1 / xs * ys + 1) / 4 + 1 / 2, (1 - 1 / xs * zs) / 6 + 1 / 3) := by
  simp only [Region.to_2d_val, back_region]
  rw [cart_sph_sin_cos h, spherical_scale h (1 / xs)]
  simp only [axis_val, CoordMap.val2d_for_3d, lerp, Prod.mk.injEq]
  norm_num
  constructor <;> ring

lemma bottom_to_2d_val {xs ys zs : ℝ} (h : xs ^ 2 + ys ^ 2 + zs ^ 2 = 1) :
    bottom_region.to_2d_val xs ys zs =
      ((-1 / zs * ys + 1) / 4 + 1 / 2, (1 - -1 / zs * xs) / 6 + 2 / 3) := by
  simp only [Region.to_2d_val, bottom_region]
  rw [cart_sph_cos h, spherical_scale h (-1 / zs)]
  simp only [axis_val, CoordMap.val2d_for_3d, lerp, Prod.mk.injEq]
  norm_num
  constructor <;> ring

lemma region_bounds (rg : Region) (hmem : rg ∈ cmp_regions) (xs ys zs : ℝ)
    (h : xs ^ 2 + ys ^ 2 + zs ^ 2 = 1)
    (hmask : rg.within_cubeface_mask xs ys zs) :
    rg.y_map.interval_2d.1 ≤ (rg.to_2d_val xs ys zs).1 ∧
    (rg.to_2d_val xs ys zs).1 ≤ rg.y_map.interval_2d.2 ∧
    rg.x_map.interval_2d.1 ≤ (rg.to_2d_val xs ys zs).2 ∧
    (rg.to_2d_val xs ys zs).2 ≤ rg.x_map.interval_2d.2 := by
  simp only [cmp_regions, List.mem_cons, List.not_mem_nil, or_false] at hmem
  rcases hmem with rfl | rfl | rfl | rfl | rfl | rfl
  · obtain ⟨hs, hxd, hyd⟩ := (top_mask_iff xs ys zs).mp hmask
    have hne : zs ≠ 0 := ne_of_gt hs
    obtain ⟨hx1, hx2⟩ := scaled_abs_lt_one hne hxd (by norm_num : |(1:ℝ)| = 1)
    obtain ⟨hy1, hy2⟩ := scaled_abs_lt_one hne hyd (by norm_num : |(1:ℝ)| = 1)
    rw [top_to_2d_val h]
    refine ⟨?_, ?_, ?_, ?_⟩
    · show (0.5:ℝ) ≤ (1 / zs * ys + 1) / 4 + 1 / 2
      linarith
    · show (1 / zs * ys + 1) / 4 + 1 / 2 ≤ (1:ℝ)
      linarith
    · show (0:ℝ) ≤ (1 / zs * xs + 1) / 6
      linarith
    · show (1 / zs * xs + 1) / 6 ≤ (1/3:ℝ)
      linarith
  · obtain ⟨hs, hxd, hzd⟩ := (left_mask_iff xs ys zs).mp hmask
    have hne : ys ≠ 0 := ne_of_lt hs
    obtain ⟨hx1, hx2⟩ := scaled_abs_lt_one hne hxd (by norm_num : |(-1:ℝ)| = 1)
    obtain ⟨hz1, hz2⟩ := scaled_abs_lt_one hne hzd (by norm_num : |(-1:ℝ)| = 1)
    rw [left_to_2d_val h]
    refine ⟨?_, ?_, ?_, ?_⟩
    · show (0:ℝ) ≤ (1 - -1 / ys * zs) / 4
      linarith
    · show (1 - -1 / ys * zs) / 4 ≤ (0.5:ℝ)
      linarith
    · show (0:ℝ) ≤ (1 - -1 / ys * xs) / 6
      linarith
    · show (1 - -1 / ys * xs) / 6 ≤ (1/3:ℝ)
      linarith
  · obtain ⟨hs, hyd, hzd⟩ := (front_mask_iff xs ys zs).mp hmask
    have hne : xs ≠ 0 := ne_of_lt hs
    obtain ⟨hy1, hy2⟩ := scaled_abs_lt_one hne hyd (by norm_num : |(-1:ℝ)| = 1)
    obtain ⟨hz1, hz2⟩ := scaled_abs_lt_one hne hzd (by norm_num : |(-1:ℝ)| = 1)
    rw [front_to_2d_val h]
    refine ⟨?_, ?_, ?_, ?_⟩
    · show (0:ℝ) ≤ (1 - -1 / xs * zs) / 4
      linarith
    · show (1 - -1 / xs * zs) / 4 ≤ (0.5:ℝ)
      linarith
    · show (1/3:ℝ) ≤ (-1 / xs * ys + 1) / 6 + 1 / 3
      linarith
    · show (-1 / xs * ys + 1) / 6 + 1 / 3 ≤ (2/3:ℝ)
      linarith
  · obtain ⟨hs, hxd, hzd⟩ := (right_mask_iff xs ys zs).mp hmask
    have hne : ys ≠ 0 := ne_of_gt hs
    obtain ⟨hx1, hx2⟩ := scaled_abs_lt_one hne hxd (by norm_num : |(1:ℝ)| = 1)
    obtain ⟨hz1, hz2⟩ := scaled_abs_lt_one hne hzd (by norm_num : |(1:ℝ)| = 1)
    rw [right_to_2d_val h]
    refine ⟨?_, ?_, ?_, ?_⟩
    · show (0:ℝ) ≤ (1 - 1 / ys * zs) / 4
      linarith
    · show (1 - 1 / ys * zs) / 4 ≤ (0.5:ℝ)
      linarith
    · show (2/3:ℝ) ≤ (1 / ys * xs + 1) / 6 + 2 / 3
      linarith
    · show (1 / ys * xs + 1) / 6 + 2 / 3 ≤ (1:ℝ)
      linarith
  · obtain ⟨hs, hzd, hyd⟩ := (back_mask_iff xs ys zs).mp hmask
    have hne : xs ≠ 0 := ne_of_gt hs
    obtain ⟨hz1, hz2⟩ := scaled_abs_lt_one hne hzd (by norm_num : |(1:ℝ)| = 1)
    obtain ⟨hy1, hy2⟩ := scaled_abs_lt_one hne hyd (by norm_num : |(1:ℝ)| = 1)
    rw [back_to_2d_val h]
    refine ⟨?_, ?_, ?_, ?_⟩
    · show (0.5:ℝ) ≤ (1 / xs * ys + 1) / 4 + 1 / 2
      linarith
    · show (1 / xs * ys + 1) / 4 + 1 / 2 ≤ (1:ℝ)
      linarith
    · show (1/3:ℝ) ≤ (1 - 1 / xs * zs) / 6 + 1 / 3
      linarith
    · show (1 - 1 / xs * zs) / 6 + 1 / 3 ≤ (2/3:ℝ)
      linarith
  · obtain ⟨hs, hxd, hyd⟩ := (bottom_mask_iff xs ys zs).mp hmask
    have hne : zs ≠ 0 := ne_of_lt hs
    obtain ⟨hx1, hx2⟩ := scaled_abs_lt_one hne hxd (by norm_num : |(-1:ℝ)| = 1)
    obtain ⟨hy1, hy2⟩ := scaled_abs_lt_one hne hyd (by norm_num : |(-1:ℝ)| = 1)
    rw [bottom_to_2d_val h]
    refine ⟨?_, ?_, ?_, ?_⟩
    · show (0.5:ℝ) ≤ (-1 / zs * ys + 1) / 4 + 1 / 2
      linarith
    · show (-1 / zs * ys + 1) / 4 + 1 / 2 ≤ (1:ℝ)
      linarith
    · show (2/3:ℝ) ≤ (1 - -1 / zs * xs) / 6 + 2 / 3
      linarith
    · show (1 - -1 / zs * xs) / 6 + 2 / 3 ≤ (1:ℝ)
      linarith

lemma cmp_mask_unique (xs ys zs : ℝ)
    (hdom : (|ys| < |xs| ∧ |zs| < |xs|) ∨ (|xs| < |ys| ∧ |zs| < |ys|) ∨
      (|xs| < |zs| ∧ |ys| < |zs|)) :
    ∃! rg, rg ∈ cmp_regions ∧ rg.within_cubeface_mask xs ys zs := by
  rcases hdom with ⟨hy, hz⟩ | ⟨hx, hz⟩ | ⟨hx, hy⟩
  · have hne : xs ≠ 0 := abs_pos.mp (lt_of_le_of_lt (abs_nonneg ys) hy)
    rcases lt_or_gt_of_ne hne with hneg | hpos
    · refine ⟨front_region, ⟨by simp [cmp_regions],
        (front_mask_iff xs ys zs).mpr ⟨hneg, hy, hz⟩⟩, ?_⟩
      rintro r' ⟨hmem, hmask⟩
      simp only [cmp_regions, List.mem_cons, List.not_mem_nil, or_false] at hmem
      rcases hmem with rfl | rfl | rfl | rfl | rfl | rfl <;>
        first
          | rfl
          | (exfalso
             simp only [top_mask_iff, left_mask_iff, front_mask_iff, right_mask_iff,
               back_mask_iff, bottom_mask_iff] at hmask
             obtain ⟨h1, h2, h3⟩ := hmask
             linarith)
    · refine ⟨back_region, ⟨by simp [cmp_regions],
        (back_mask_iff xs ys zs).mpr ⟨hpos, hz, hy⟩⟩, ?_⟩
      rintro r' ⟨hmem, hmask⟩
      simp only [cmp_regions, List.mem_cons, List.not_mem_nil, or_false] at hmem
      rcases hmem with rfl | rfl | rfl | rfl | rfl | rfl <;>
        first
          | rfl
          | (exfalso
             simp only [top_mask_iff, left_mask_iff, front_mask_iff, right_mask_iff,
               back_mask_iff, bottom_mask_iff] at hmask
             obtain ⟨h1, h2, h3⟩ := hmask
             linarith)
  · have hne : ys ≠ 0 := abs_pos.mp (lt_of_le_of_lt (abs_nonneg xs) hx)
    rcases lt_or_gt_of_ne hne with hneg | hpos
    · refine ⟨left_region, ⟨by simp [cmp_regions],
        (left_mask_iff xs ys zs).mpr ⟨hneg, hx, hz⟩⟩, ?_⟩
      rintro r' ⟨hmem, hmask⟩
      simp only [cmp_regions, List.mem_cons, List.not_mem_nil, or_false] at hmem
      rcases hmem with rfl | rfl | rfl | rfl | rfl | rfl <;>
        first
          | rfl
          | (exfalso
             simp only [top_mask_iff, left_mask_iff, front_mask_iff, right_mask_iff,
               back_mask_iff, bottom_mask_iff] at hmask
             obtain ⟨h1, h2, h3⟩ := hmask
             linarith)
    · refine ⟨right_region, ⟨by simp [cmp_regions],
        (right_mask_iff xs ys zs).mpr ⟨hpos, hx, hz⟩⟩, ?_⟩
      rintro r' ⟨hmem, hmask⟩
      simp only [cmp_regions, List.mem_cons, List.not_mem_nil, or_false] at hmem
      rcases hmem with rfl | rfl | rfl | rfl | rfl | rfl <;>
        first
          | rfl
          | (exfalso
             simp only [top_mask_iff, left_mask_iff, front_mask_iff, right_mask_iff,
               back_mask_iff, bottom_mask_iff] at hmask
             obtain ⟨h1, h2, h3⟩ := hmask
             linarith)
  · have hne : zs ≠ 0 := abs_pos.mp (lt_of_le_of_lt (abs_nonneg xs) hx)
    rcases lt_or_gt_of_ne hne with hneg | hpos
    · refine ⟨bottom_region, ⟨by simp [cmp_regions],
        (bottom_mask_iff xs ys zs).mpr ⟨hneg, hx, hy⟩⟩, ?_⟩
      rintro r' ⟨hmem, hmask⟩
      simp only [cmp_regions, List.mem_cons, List.not_mem_nil, or_false] at hmem
      rcases hmem with rfl | rfl | rfl | rfl | rfl | rfl <;>
        first
          | rfl
          | (exfalso
             simp only [top_mask_iff, left_mask_iff, front_mask_iff, right_mask_iff,
               back_mask_iff, bottom_mask_iff] at hmask
             obtain ⟨h1, h2, h3⟩ := hmask
             linarith)
    · refine ⟨top_region, ⟨by simp [cmp_regions],
        (top_mask_iff xs ys zs).mpr ⟨hpos, hx, hy⟩⟩, ?_⟩
      rintro r' ⟨hmem, hmask⟩
      simp only [cmp_regions, List.mem_cons, List.not_mem_nil, or_false] at hmem
      rcases hmem with rfl | rfl | rfl | rfl | rfl | rfl <;>
        first
          | rfl
          | (exfalso
             simp only [top_mask_iff, left_mask_iff, front_mask_iff, right_mask_iff,
               back_mask_iff, bottom_mask_iff] at hmask
             obtain ⟨h1, h2, h3⟩ := hmask
             linarith)

/-- **C3.** For every unit vector `(xs, ys, zs)` not on a cube edge (one
component's absolute value strictly dominates the other two), exactly one
of the six CMP regions' `within_cubeface_mask` holds, and every region
whose mask holds maps the vector by `to_2d` into that region's 2D
intervals. -/
theorem cmp_partition (xs ys zs : ℝ) (hunit : xs ^ 2 + ys ^ 2 + zs ^ 2 = 1)
    (hdom : (|ys| < |xs| ∧ |zs| < |xs|) ∨ (|xs| < |ys| ∧ |zs| < |ys|) ∨
      (|xs| < |zs| ∧ |ys| < |zs|)) :
    (∃! rg, rg ∈ cmp_regions ∧ rg.within_cubeface_mask xs ys zs) ∧
    ∀ rg ∈ cmp_regions, rg.within_cubeface_mask xs ys zs →
      rg.y_map.interval_2d.1 ≤ (rg.to_2d_val xs ys zs).1 ∧
      (rg.to_2d_val xs ys zs).1 ≤ rg.y_map.interval_2d.2 ∧
      rg.x_map.interval_2d.1 ≤ (rg.to_2d_val xs ys zs).2 ∧
      (rg.to_2d_val xs ys zs).2 ≤ rg.x_map.interval_2d.2 :=
  ⟨cmp_mask_unique xs ys zs hdom,
   fun rg hmem hmask => region_bounds rg hmem xs ys zs hunit hmask⟩

/-- Witness for C3 at the unit vector `(0, 0, 1)` (straight up). -/
theorem cmp_partition_witness :
    ((0:ℝ) ^ 2 + 0 ^ 2 + 1 ^ 2 = 1) ∧
    ((∃! rg, rg ∈ cmp_regions ∧ rg.within_cubeface_mask 0 0 1) ∧
     ∀ rg ∈ cmp_regions, rg.within_cubeface_mask 0 0 1 →
       rg.y_map.interval_2d.1 ≤ (rg.to_2d_val 0 0 1).1 ∧
       (rg.to_2d_val 0 0 1).1 ≤ rg.y_map.interval_2d.2 ∧
       rg.x_map.interval_2d.1 ≤ (rg.to_2d_val 0 0 1).2 ∧
       (rg.to_2d_val 0 0 1).2 ≤ rg.x_map.interval_2d.2) :=
  ⟨by norm_num,
   cmp_partition 0 0 1 (by norm_num)
     (Or.inr (Or.inr (by norm_num)))⟩

lemma np_argmax_zero {L : ℕ} (hL : 0 < L) (f : Fin L → ℝ)
    (hmax : ∀ i, f i ≤ f ⟨0, hL⟩) : np_argmax hL f = ⟨0, hL⟩ := by
  rw [np_argmax]
  have key : ∀ l : List (Fin L),
      l.foldl (fun b i => if f b < f i then i else b) ⟨0, hL⟩ = ⟨0, hL⟩ := by
    intro l
    induction l with
    | nil => rfl
    | cons a t ih =>
      rw [List.foldl_cons, if_neg (not_lt.mpr (hmax a))]
      exact ih
  exact key _

lemma dct_basis_dict_dc {K N : ℕ} (hK : 0 < K) (hL : 0 < K * K)
    (x y : Fin N → ℝ) (n : Fin N) :
    dct_basis_dict x y K ⟨0, hL⟩ n = 2 / K := by
  simp [dct_basis_dict, dct_weight]

lemma dct_frequency_weighting_dc {K : ℕ} (hL : 0 < K * K) (sigma : ℝ) :
    dct_frequency_weighting K sigma ⟨0, hL⟩ = 1 := by
  simp [dct_frequency_weighting]

lemma dct_frequency_weighting_le_one {K : ℕ} (sigma : ℝ) (hs0 : 0 ≤ sigma)
    (hs1 : sigma ≤ 1) (j : Fin (K * K)) :
    dct_frequency_weighting K sigma j ≤ 1 :=
  Real.rpow_le_one hs0 hs1 (Real.sqrt_nonneg _)

lemma dct_frequency_weighting_nonneg {K : ℕ} (sigma : ℝ) (hs0 : 0 ≤ sigma)
    (j : Fin (K * K)) : 0 ≤ dct_frequency_weighting K sigma j :=
  Real.rpow_nonneg hs0 _

lemma fsmr_const_one_iter {K N : ℕ} (hK : 0 < K) (hN : 0 < N)
    (x y : Fin N → ℝ) (v sigma : ℝ) (hs0 : 0 < sigma) (hs1 : sigma ≤ 1)
    (hd : ∀ j, 0 < ∑ n, (dct_basis_dict x y K j n) ^ 2 * (1:ℝ)) :
    fsmr (Nat.mul_pos hK hK) (fun _ => v) (dct_basis_dict x y K) (fun _ => 1)
      (dct_frequency_weighting K sigma) 1 1 ⟨0, Nat.mul_pos hK hK⟩ = v * K / 2 ∧
    ∀ j : Fin (K * K), j.val ≠ 0 →
      fsmr (Nat.mul_pos hK hK) (fun _ => v) (dct_basis_dict x y K) (fun _ => 1)
        (dct_frequency_weighting K sigma) 1 1 j = 0 := by
  set B := dct_basis_dict x y K with hBdef
  set fw := dct_frequency_weighting K sigma with hfwdef
  have hKR : (K:ℝ) ≠ 0 := Nat.cast_ne_zero.mpr hK.ne'
  have hNR : (N:ℝ) ≠ 0 := Nat.cast_ne_zero.mpr hN.ne'
  have hB0 : ∀ n, B ⟨0, Nat.mul_pos hK hK⟩ n = 2 / K :=
    fun n => dct_basis_dict_dc hK _ x y n
  have hp0 : (∑ n : Fin N, B ⟨0, Nat.mul_pos hK hK⟩ n * (v * 1)) = N * (2 / K * v) := by
    have he : ∀ n : Fin N, B ⟨0, Nat.mul_pos hK hK⟩ n * (v * 1) = 2 / K * v :=
      fun n => by rw [hB0 n]; ring
    rw [Finset.sum_congr rfl fun n _ => he n, Finset.sum_const, Finset.card_univ,
      Fintype.card_fin, nsmul_eq_mul]
  have hD0 : (∑ n : Fin N, (B ⟨0, Nat.mul_pos hK hK⟩ n) ^ 2 * 1) =
      (N : ℝ) * (2 / (K : ℝ)) ^ 2 := by
    have he : ∀ n : Fin N, (B ⟨0, Nat.mul_pos hK hK⟩ n) ^ 2 * (1:ℝ) = (2 / K) ^ 2 :=
      fun n => by rw [hB0 n]; ring
    rw [Finset.sum_congr rfl fun n _ => he n, Finset.sum_const, Finset.card_univ,
      Fintype.card_fin, nsmul_eq_mul]
  have hobj0 : fw ⟨0, Nat.mul_pos hK hK⟩ *
      ((∑ n, B ⟨0, Nat.mul_pos hK hK⟩ n * (v * 1)) ^ 2 /
        (∑ n, (B ⟨0, Nat.mul_pos hK hK⟩ n) ^ 2 * 1)) = v ^ 2 * N := by
    have hfw0 : fw ⟨0, Nat.mul_pos hK hK⟩ = 1 := dct_frequency_weighting_dc _ sigma
    rw [hfw0, hp0, hD0, one_mul]
    field_simp
    ring
  have hobj : ∀ j, fw j * ((∑ n, B j n * (v * 1)) ^ 2 / (∑ n, (B j n) ^ 2 * 1)) ≤
      fw ⟨0, Nat.mul_pos hK hK⟩ *
        ((∑ n, B ⟨0, Nat.mul_pos hK hK⟩ n * (v * 1)) ^ 2 /
          (∑ n, (B ⟨0, Nat.mul_pos hK hK⟩ n) ^ 2 * 1)) := by
    intro j
    have hDj := hd j
    have hq0 : 0 ≤ (∑ n, B j n * (v * 1)) ^ 2 / (∑ n, (B j n) ^ 2 * 1) :=
      div_nonneg (sq_nonneg _) hDj.le
    have hcs : (∑ n, B j n * (v * 1)) ^ 2 ≤ v ^ 2 * N * (∑ n, (B j n) ^ 2 * 1) := by
      have h1 : (∑ n, B j n * (v * 1)) = v * ∑ n, B j n * 1 := by
        rw [Finset.mul_sum]
        exact Finset.sum_congr rfl fun n _ => by ring
      have h2 : (∑ n, B j n * (1:ℝ)) ^ 2 ≤ (∑ n, (B j n) ^ 2) * (∑ n, (1:ℝ) ^ 2) :=
        Finset.sum_mul_sq_le_sq_mul_sq Finset.univ _ _
      have h3 : (∑ _n : Fin N, (1:ℝ) ^ 2) = N := by
        rw [Finset.sum_congr rfl fun n _ => one_pow 2, Finset.sum_const, Finset.card_univ,
          Fintype.card_fin, nsmul_eq_mul, mul_one]
      have h4 : (∑ n, (B j n) ^ 2 * (1:ℝ)) = ∑ n, (B j n) ^ 2 :=
        Finset.sum_congr rfl fun n _ => mul_one _
      rw [h3] at h2
      rw [h1, mul_pow, h4]
      calc v ^ 2 * (∑ n, B j n * 1) ^ 2
          ≤ v ^ 2 * ((∑ n, (B j n) ^ 2) * N) := mul_le_mul_of_nonneg_left h2 (sq_nonneg v)
        _ = v ^ 2 * N * (∑ n, (B j n) ^ 2) := by ring
    have hdiv : (∑ n, B j n * (v * 1)) ^ 2 / (∑ n, (B j n) ^ 2 * 1) ≤ v ^ 2 * N :=
      (div_le_iff hDj).mpr hcs
    rw [hobj0]
    calc fw j * ((∑ n, B j n * (v * 1)) ^ 2 / (∑ n, (B j n) ^ 2 * 1))
        ≤ 1 * (v ^ 2 * N) :=
          mul_le_mul (dct_frequency_weighting_le_one sigma hs0.le hs1 j) hdiv hq0 zero_le_one
      _ = v ^ 2 * N := one_mul _
  have hidx : np_argmax (Nat.mul_pos hK hK)
      (fun j => fw j * ((∑ n, B j n * (v * 1)) ^ 2 / (∑ n, (B j n) ^ 2 * 1))) =
      ⟨0, Nat.mul_pos hK hK⟩ :=
    np_argmax_zero _ _ hobj
  have hfs : fsmr (Nat.mul_pos hK hK) (fun _ => v) B (fun _ => 1) fw 1 1 =
      Function.update (fun _ => (0:ℝ)) ⟨0, Nat.mul_pos hK hK⟩
        (0 + 1 * ((∑ n, B ⟨0, Nat.mul_pos hK hK⟩ n * (v * 1)) /
          (∑ n, (B ⟨0, Nat.mul_pos hK hK⟩ n) ^ 2 * 1))) := by
    rw [fsmr, Function.iterate_one]
    simp only [fsmr_step]
    rw [hidx]
  constructor
  · rw [hfs, Function.update_same, hp0, hD0]
    field_simp
    ring
  · intro j hj
    rw [hfs, Function.update_noteq (Fin.ne_of_val_ne hj)]

/-- **C6 (amended).** For every mesh of `N ≥ 1` points on which no
dictionary atom is identically zero (all per-atom denominators positive),
a constant signal `v`, all-ones spatial weights, frequency weighting with
decay `σ ∈ (0, 1]`, odc `γ = 1` and exactly one matching-pursuit
iteration: the returned coefficients satisfy `c[(0,0)] = v·K/2` — not `v`,
because the weight table indexing gives the DC atom the weight `2/K` — and
`c[j] = 0` for every `j ≠ (0,0)`. -/
theorem fsmr_dc_recovery {K N : ℕ} (hK : 0 < K) (hN : 0 < N)
    (x y : Fin N → ℝ) (v sigma : ℝ) (hs0 : 0 < sigma) (hs1 : sigma ≤ 1)
    (hd : ∀ j, 0 < ∑ n, (dct_basis_dict x y K j n) ^ 2 * (1:ℝ)) :
    fsmr (Nat.mul_pos hK hK) (fun _ => v) (dct_basis_dict x y K) (fun _ => 1)
      (dct_frequency_weighting K sigma) 1 1 ⟨0, Nat.mul_pos hK hK⟩ = v * K / 2 ∧
    ∀ j : Fin (K * K), j.val ≠ 0 →
      fsmr (Nat.mul_pos hK hK) (fun _ => v) (dct_basis_dict x y K) (fun _ => 1)
        (dct_frequency_weighting K sigma) 1 1 j = 0 :=
  fsmr_const_one_iter hK hN x y v sigma hs0 hs1 hd

lemma fsmr_dc_cx_denom :
    ∀ j : Fin (4 * 4), 0 < ∑ n : Fin 1,
      (dct_basis_dict (fun _ => (0.5:ℝ)) (fun _ => (0.5:ℝ)) 4 j n) ^ 2 * (1:ℝ) := by
  intro j
  fin_cases j <;>
    norm_num [dct_basis_dict, dct_weight, Fin.sum_univ_one, div_pow, Real.sq_sqrt]

/-- Counterexample for C6: at `K = 4`, one mesh point `(0.5, 0.5)`,
constant signal `v = 1`, all-ones weights, `σ = 1`, `γ = 1`, one
iteration: the returned DC coefficient is `2 = v·K/2`, not `v = 1`. -/
theorem fsmr_dc_counterexample :
    fsmr (Nat.mul_pos (by norm_num : (0:ℕ) < 4) (by norm_num)) (fun _ => (1:ℝ))
      (dct_basis_dict (fun _ : Fin 1 => 0.5) (fun _ => 0.5) 4) (fun _ => 1)
      (dct_frequency_weighting 4 1) 1 1 ⟨0, by norm_num⟩ = 2 ∧ (2:ℝ) ≠ 1 := by
  constructor
  · have h := (fsmr_const_one_iter (by norm_num : (0:ℕ) < 4) (by norm_num : (0:ℕ) < 1)
      (fun _ : Fin 1 => (0.5:ℝ)) (fun _ => 0.5) 1 1 (by norm_num) le_rfl
      fsmr_dc_cx_denom).1
    exact h.trans (by norm_num)
  · norm_num

/-- Witness for C6 at `K = 4`, one mesh point `(0.5, 0.5)`, `v = 1`,
`σ = 1`. -/
theorem fsmr_dc_recovery_witness :
    ((0:ℝ) < 1 ∧ (1:ℝ) ≤ 1) ∧
    (fsmr (Nat.mul_pos (by norm_num : (0:ℕ) < 4) (by norm_num)) (fun _ => (1:ℝ))
        (dct_basis_dict (fun _ : Fin 1 => 0.5) (fun _ => 0.5) 4) (fun _ => 1)
        (dct_frequency_weighting 4 1) 1 1
        ⟨0, Nat.mul_pos (by norm_num) (by norm_num)⟩ = (1:ℝ) * ((4:ℕ):ℝ) / 2 ∧
     ∀ j : Fin (4 * 4), j.val ≠ 0 →
       fsmr (Nat.mul_pos (by norm_num : (0:ℕ) < 4) (by norm_num)) (fun _ => (1:ℝ))
         (dct_basis_dict (fun _ : Fin 1 => 0.5) (fun _ => 0.5) 4) (fun _ => 1)
         (dct_frequency_weighting 4 1) 1 1 j = 0) :=
  ⟨⟨by norm_num, le_rfl⟩,
   fsmr_dc_recovery (by norm_num) (by norm_num) _ _ 1 1 (by norm_num) le_rfl
     fsmr_dc_cx_denom⟩

lemma ok_bind {α β : Type} (a : α) (f : α → Except String β) :
    (Except.ok a >>= f) = f a := rfl

lemma mapM_ok_of_forall {α β : Type} (f : α → Except String β) :
    ∀ l : List α, (∀ a ∈ l, ∃ b, f a = Except.ok b) →
      ∃ bs, l.mapM f = Except.ok bs ∧ bs.length = l.length := by
  intro l
  induction l with
  | nil => intro _; exact ⟨[], rfl, rfl⟩
  | cons a t ih =>
    intro h
    obtain ⟨b, hb⟩ := h a (List.mem_cons_self a t)
    obtain ⟨bs, hbs, hblen⟩ := ih (fun a' ha' => h a' (List.mem_cons_of_mem a ha'))
    refine ⟨b :: bs, ?_, by simp [hblen]⟩
    rw [List.mapM_cons, hb, ok_bind, hbs]
    rfl

open Classical in
lemma np_argmax_list_lt (l : List ℝ) (h : 0 < l.length) :
    np_argmax_list l < l.length := by
  rw [np_argmax_list]
  have key : ∀ (idxs : List ℕ) (b : ℕ), b < l.length → (∀ i ∈ idxs, i < l.length) →
      idxs.foldl (fun b i => if l.getD b 0 < l.getD i 0 then i else b) b < l.length := by
    intro idxs
    induction idxs with
    | nil => intro b hb _; exact hb
    | cons i t ih =>
      intro b hb hmem
      rw [List.foldl_cons]
      by_cases hc : l.getD b 0 < l.getD i 0
      · rw [if_pos hc]
        exact ih _ (hmem i (List.mem_cons_self i t))
          (fun i' hi' => hmem i' (List.mem_cons_of_mem i hi'))
      · rw [if_neg hc]
        exact ih _ hb (fun i' hi' => hmem i' (List.mem_cons_of_mem i hi'))
  exact key _ 0 h (fun i hi => List.mem_range.mp hi)

lemma fsmr_step_exc_ok (basis : List (List ℝ)) (sw fw D : List ℝ) (odc : ℝ)
    (Nsrc : ℕ) (hrows : ∀ row ∈ basis, row.length = Nsrc)
    (hL : 0 < basis.length) (hsw : sw.length = Nsrc)
    (hfw : fw.length = basis.length) (hD : D.length = basis.length)
    (st : List ℝ × List ℝ) (h1 : st.1.length = Nsrc)
    (h2 : st.2.length = basis.length) :
    ∃ st', fsmr_step_exc basis sw fw D odc st = Except.ok st' ∧
      st'.1.length = Nsrc ∧ st'.2.length = basis.length := by
  obtain ⟨residual, coeffs⟩ := st
  simp only at h1 h2
  have hw : vec_mul_exc residual sw =
      Except.ok (List.zipWith (· * ·) residual sw) := if_pos (by rw [h1, hsw])
  have hwlen : (List.zipWith (· * ·) residual sw).length = Nsrc := by
    rw [List.length_zipWith, h1, hsw, min_self]
  obtain ⟨p, hp, hplen⟩ := mapM_ok_of_forall
    (fun row => dot_exc row (List.zipWith (· * ·) residual sw)) basis
    (fun row hrow => ⟨_, if_pos (by rw [hrows row hrow, hwlen])⟩)
  have hq : vec_div_exc (p.map (fun a => a ^ 2)) D =
      Except.ok (List.zipWith (· / ·) (p.map (fun a => a ^ 2)) D) :=
    if_pos (by rw [List.length_map, hplen, hD])
  have hqlen : (List.zipWith (· / ·) (p.map (fun a => a ^ 2)) D).length =
      basis.length := by
    rw [List.length_zipWith, List.length_map, hplen, hD, min_self]
  have hobj : vec_mul_exc fw (List.zipWith (· / ·) (p.map (fun a => a ^ 2)) D) =
      Except.ok (List.zipWith (· * ·) fw
        (List.zipWith (· / ·) (p.map (fun a => a ^ 2)) D)) :=
    if_pos (by rw [hfw, hqlen])
  set obj := List.zipWith (· * ·) fw
    (List.zipWith (· / ·) (p.map (fun a => a ^ 2)) D) with hobjdef
  have hobjlen : obj.length = basis.length := by
    rw [hobjdef, List.length_zipWith, hfw, hqlen, min_self]
  have hobjne : ¬ obj.length = 0 := by rw [hobjlen]; omega
  set idx := np_argmax_list obj with hidxdef
  have hidxlt : idx < basis.length := by
    rw [← hobjlen]
    exact np_argmax_list_lt obj (by rw [hobjlen]; exact hL)
  have hrowmem : basis.getD idx [] ∈ basis := by
    rw [List.getD_eq_getElem _ _ hidxlt]
    exact List.getElem_mem _
  have hrowlen : (basis.getD idx []).length = Nsrc := hrows _ hrowmem
  set c := p.getD idx 0 / D.getD idx 0 with hcdef
  have hsub : vec_sub_exc residual
      ((basis.getD idx []).map (fun b => odc * b * c)) =
      Except.ok (List.zipWith (· - ·) residual
        ((basis.getD idx []).map (fun b => odc * b * c))) :=
    if_pos (by rw [h1, List.length_map, hrowlen])
  refine ⟨(List.zipWith (· - ·) residual
      ((basis.getD idx []).map (fun b => odc * b * c)),
      coeffs.set idx (coeffs.getD idx 0 + odc * c)), ?_, ?_, ?_⟩
  · simp only [fsmr_step_exc, mat_vec_exc]
    rw [hw, ok_bind, hp, ok_bind, hq, ok_bind, hobj, ok_bind, if_neg hobjne, hsub, ok_bind]
  · rw [List.length_zipWith, h1, List.length_map, hrowlen, min_self]
  · rw [List.length_set]
    exact h2

lemma iterate_fsmr_ok (basis : List (List ℝ)) (sw fw D : List ℝ) (odc : ℝ)
    (Nsrc : ℕ) (hrows : ∀ row ∈ basis, row.length = Nsrc)
    (hL : 0 < basis.length) (hsw : sw.length = Nsrc)
    (hfw : fw.length = basis.length) (hD : D.length = basis.length) :
    ∀ (t : ℕ) (st : List ℝ × List ℝ), st.1.length = Nsrc →
      st.2.length = basis.length →
      ∃ out, iterate_exc (fsmr_step_exc basis sw fw D odc) t st = Except.ok out ∧
        out.1.length = Nsrc ∧ out.2.length = basis.length := by
  intro t
  induction t with
  | zero => intro st hst1 hst2; exact ⟨st, rfl, hst1, hst2⟩
  | succ n ih =>
    intro st hst1 hst2
    obtain ⟨st', hst', h1', h2'⟩ :=
      fsmr_step_exc_ok basis sw fw D odc Nsrc hrows hL hsw hfw hD st hst1 hst2
    obtain ⟨out, hout, ho1, ho2⟩ := ih st' h1' h2'
    refine ⟨out, ?_, ho1, ho2⟩
    have hiter : iterate_exc (fsmr_step_exc basis sw fw D odc) (n + 1) st =
        fsmr_step_exc basis sw fw D odc st >>=
          iterate_exc (fsmr_step_exc basis sw fw D odc) n := rfl
    rw [hiter, hst', ok_bind]
    exact hout

lemma fsmr_exc_ok (mesh_val : List ℝ) (basis : List (List ℝ)) (sw fw : List ℝ)
    (odc : ℝ) (T : ℤ) (Nsrc : ℕ) (hrows : ∀ row ∈ basis, row.length = Nsrc)
    (hL : 0 < basis.length) (hsw : sw.length = Nsrc)
    (hfw : fw.length = basis.length) (hmv : mesh_val.length = Nsrc) :
    ∃ out, fsmr_exc mesh_val basis sw fw odc T = Except.ok out ∧
      out.length = basis.length := by
  obtain ⟨D, hDok, hDlen⟩ := mapM_ok_of_forall (fun row => dot_exc row sw)
    (basis.map (fun row => row.map (fun a => a ^ 2)))
    (fun row hrow => by
      obtain ⟨r0, hr0, rfl⟩ := List.mem_map.mp hrow
      exact ⟨_, if_pos (by rw [List.length_map, hrows r0 hr0, hsw])⟩)
  have hDlen' : D.length = basis.length := by rw [hDlen, List.length_map]
  obtain ⟨final, hfinal, hf1, hf2⟩ := iterate_fsmr_ok basis sw fw D odc Nsrc hrows hL
    hsw hfw hDlen' T.toNat (mesh_val, List.replicate basis.length 0)
    (by simpa using hmv) (by simp)
  refine ⟨final.2, ?_, hf2⟩
  simp only [fsmr_exc, mat_vec_exc]
  rw [hDok, ok_bind, hfinal, ok_bind]

lemma dct_basis_dict_exc_ok {K : ℤ} (hK : K ≠ 0) (x y : List ℝ) :
    dct_basis_dict_exc x y K = Except.ok (dct_basis_matrix x y K) := if_neg hK

lemma dct_basis_matrix_length (x y : List ℝ) (K : ℤ) :
    (dct_basis_matrix x y K).length = K.toNat * K.toNat := by
  rw [dct_basis_matrix, List.length_map, List.length_range]

lemma dct_basis_matrix_rows (x y : List ℝ) (K : ℤ) :
    ∀ row ∈ dct_basis_matrix x y K, row.length = min x.length y.length := by
  intro row hrow
  rw [dct_basis_matrix] at hrow
  obtain ⟨j, _, rfl⟩ := List.mem_map.mp hrow
  rw [List.length_map, List.length_zip]

lemma dct_frequency_weighting_list_length (K : ℤ) (sigma : ℝ) :
    (dct_frequency_weighting_list K sigma).length = K.toNat * K.toNat := by
  rw [dct_frequency_weighting_list, List.length_map, List.length_range]

/-- **C8 (amended).** `resample_fsmr` performs no argument validation and
raises nothing called `InvalidArgument`: with `K ≥ 1` and
`len(src_vals) = len(src_pts)` it returns normally for every
`max_iterations`, including `T < 0` (the loop simply runs zero times);
with `K = 0` it always fails — via Python's `ZeroDivisionError` from
`1 / transform_length`, not a dedicated validation error. -/
theorem resample_fsmr_error_conditions (src : List (ℝ × ℝ)) (vals : List ℝ)
    (tgt : List (ℝ × ℝ)) (K : ℤ) (odc sigma shift : ℝ) (T : ℤ)
    (hK : 1 ≤ K) (hlen : vals.length = src.length) :
    (∃ out, resample_fsmr_exc src vals tgt K odc sigma shift T none = Except.ok out) ∧
    resample_fsmr_exc src vals tgt 0 odc sigma shift T none =
      Except.error "ZeroDivisionError: division by zero" := by
  constructor
  · have hKne : K ≠ 0 := by omega
    have hKpos : 0 < K.toNat * K.toNat := by
      have h1 : 1 ≤ K.toNat := by omega
      exact Nat.mul_pos h1 h1
    simp only [resample_fsmr_exc, dct_basis_dict_exc_ok hKne, ok_bind]
    obtain ⟨coeffs, hco, hcolen⟩ := fsmr_exc_ok vals
      (dct_basis_matrix
        ((src.map (fun p => (p.1 + shift, p.2 + shift))).map Prod.fst)
        ((src.map (fun p => (p.1 + shift, p.2 + shift))).map Prod.snd) K)
      (List.replicate (src.map (fun p => (p.1 + shift, p.2 + shift))).length 1)
      (dct_frequency_weighting_list K sigma) odc T src.length
      (by
        intro row hrow
        rw [dct_basis_matrix_rows _ _ _ row hrow]
        simp)
      (by rw [dct_basis_matrix_length]; exact hKpos)
      (by simp)
      (by rw [dct_frequency_weighting_list_length, dct_basis_matrix_length])
      hlen
    rw [hco]
    simp only [ok_bind]
    obtain ⟨tv, htv, _⟩ := mapM_ok_of_forall
      (fun i => dot_exc
        ((dct_basis_matrix
          ((tgt.map (fun p => (p.1 + shift, p.2 + shift))).map Prod.fst)
          ((tgt.map (fun p => (p.1 + shift, p.2 + shift))).map Prod.snd) K).map
            (fun row => row.getD i 0)) coeffs)
      (List.range (tgt.map (fun p => (p.1 + shift, p.2 + shift))).length)
      (fun i _ => ⟨_, if_pos (by
        rw [List.length_map, dct_basis_matrix_length, hcolen, dct_basis_matrix_length])⟩)
    rw [htv]
    simp only [ok_bind]
    exact ⟨_, rfl⟩
  · rfl

/-- Witness for C8 at `src = [(0, 0)]`, `vals = [0]`, `K = 1`, `T = -1`. -/
theorem resample_fsmr_error_conditions_witness :
    ((1:ℤ) ≤ 1 ∧ ([(0:ℝ)] : List ℝ).length = ([((0:ℝ), 0)] : List (ℝ × ℝ)).length) ∧
    ((∃ out, resample_fsmr_exc [((0:ℝ), 0)] [0] [((0:ℝ), 0)] 1 1 1 0 (-1) none =
        Except.ok out) ∧
     resample_fsmr_exc [((0:ℝ), 0)] [0] [((0:ℝ), 0)] 0 1 1 0 (-1) none =
       Except.error "ZeroDivisionError: division by zero") :=
  ⟨⟨le_rfl, rfl⟩,
   resample_fsmr_error_conditions [((0:ℝ), 0)] [0] [((0:ℝ), 0)] 1 1 1 0 (-1)
     le_rfl rfl⟩

/-- Counterexample for C8: with well-formed inputs (`K = 1`, matching
lengths) and `max_iterations = -1 < 0` — a case the claim requires to fail
with `InvalidArgument` — `resample_fsmr` returns normally (the loop runs
zero times). -/
theorem resample_fsmr_neg_iterations_ok :
    resample_fsmr_exc [((0:ℝ), 0)] [0] [((0:ℝ), 0)] 1 1 1 0 (-1) none =
      Except.ok ([0], [((0:ℝ), 0)], [((0:ℝ), 0)]) := by
  norm_num [resample_fsmr_exc, dct_basis_dict_exc, dct_basis_matrix,
    dct_frequency_weighting_list, fsmr_exc, mat_vec_exc, dot_exc, vec_mul_exc,
    iterate_exc, ok_bind, List.mapM.loop, List.range_succ, List.range_zero]

/-- **C7.** `resample_fsmr` adds `shift` to the caller's mesh arrays in
place (`source_mesh += shift; target_mesh += shift`): called with
`source_mesh = target_mesh = [(0, 0)]` and `shift = 16`, after the call
the caller's arrays hold `[(16, 16)]` — not their original values.  The
inputs are mutated, contradicting the copy semantics the spec requires. -/
theorem resample_fsmr_mutates_input :
    resample_fsmr_exc [((0:ℝ), 0)] [0] [((0:ℝ), 0)] 1 1 1 16 0 none =
      Except.ok ([0], [((16:ℝ), 16)], [((16:ℝ), 16)]) ∧
    ([((16:ℝ), 16)] : List (ℝ × ℝ)) ≠ [((0:ℝ), 0)] := by
  constructor
  · norm_num [resample_fsmr_exc, dct_basis_dict_exc, dct_basis_matrix,
      dct_frequency_weighting_list, fsmr_exc, mat_vec_exc, dot_exc, vec_mul_exc,
      iterate_exc, ok_bind, List.mapM.loop, List.range_succ, List.range_zero]
  · intro h
    have h1 := List.head_eq_of_cons_eq h
    have h2 := congrArg Prod.fst h1
    norm_num at h2

end VPR

